import Mathlib

/-!
# pgb: identifier quoting and the INSERT statement builder

A shallow embedding of `identifier.go` and `insert_builder.go`.

* A Go `string` is a sequence of bytes; it is embedded as a `List Char`, one
  element per byte (or, for valid UTF-8 text, per code point: the patterns the
  code searches for are ASCII, and the lexicographic order on code points is
  the byte order of the UTF-8 encoding).
* A Go `map[string]any` is a list of entries with pairwise distinct keys; the
  order of the list stands for the order in which `range` enumerates the map.
* The builder is a record that is passed explicitly; `sync.Once` is the flag
  `buildOnce`. A run-time panic is the result `none`.
-/

namespace Pgb

/-- Go `string`. -/
abbrev Str := List Char

/-! ## The parts of the Go standard library that the code calls -/

namespace strings

/-- Go `strings.ContainsRune(s, r)`. -/
def ContainsRune (s : Str) (r : Char) : Bool := s.contains r

/-- Scanning loop of `strings.Replace` for a non-empty `old`: `skip` counts the
characters of a match that are still to be dropped. -/
def replaceFrom (old new : Str) : Nat → Str → Str
  | _, [] => []
  | skip + 1, _ :: cs => replaceFrom old new skip cs
  | 0, c :: cs =>
    if old.isPrefixOf (c :: cs) then new ++ replaceFrom old new (old.length - 1) cs
    else c :: replaceFrom old new 0 cs

/-- Go `strings.ReplaceAll(s, old, new)`: the non-overlapping occurrences of
`old`, found left to right, are replaced by `new`; an empty `old` matches
before every character and at the end. -/
def ReplaceAll (s old new : Str) : Str :=
  if old = [] then new ++ s.flatMap (fun c => c :: new)
  else replaceFrom old new 0 s

/-- Scanning loop of `strings.Split` for a non-empty `sep`: `cur` is the piece
being read, `skip` counts the characters of a separator still to be dropped. -/
def splitFrom (sep : Str) : Nat → Str → Str → List Str
  | _, cur, [] => [cur]
  | skip + 1, cur, _ :: cs => splitFrom sep skip cur cs
  | 0, cur, c :: cs =>
    if sep.isPrefixOf (c :: cs) then cur :: splitFrom sep (sep.length - 1) [] cs
    else splitFrom sep 0 (cur ++ [c]) cs

/-- Go `strings.Split(s, sep)`: the pieces between the non-overlapping
occurrences of `sep`; an empty `sep` splits after every character. -/
def Split (s sep : Str) : List Str :=
  if sep = [] then s.map (fun c => [c])
  else splitFrom sep 0 [] s

/-- Go `strings.Join(elems, sep)`. -/
def Join (elems : List Str) (sep : Str) : Str :=
  match elems with
  | [] => []
  | e :: rest => e ++ rest.flatMap (fun s => sep ++ s)

end strings

namespace sort

/-- Go `sort.Strings`: the strings in increasing (byte-lexicographic) order. -/
def Strings (keys : List Str) : List Str := keys.insertionSort (· ≤ ·)

end sort

namespace strconv

/-- Go `strconv.FormatInt(i, 10)`. -/
def FormatInt (i : Int) : Str :=
  if i < 0 then '-' :: Nat.toDigits 10 i.natAbs else Nat.toDigits 10 i.toNat

end strconv

/-! ## identifier.go -/

/-- Go `type ident string`. -/
abbrev ident := Str

/-- `func (ident ident) Sanitize() string`. -/
def ident.Sanitize (id : ident) : Str :=
  if !strings.ContainsRune id '.' then
    let s := strings.ReplaceAll id [Char.ofNat 0] []
    let s := strings.ReplaceAll s ['"'] ['"', '"']
    ['"'] ++ s ++ ['"']
  else
    let parts := strings.Split id ['.']
    let parts := parts.map (fun p =>
      let s := strings.ReplaceAll p [Char.ofNat 0] []
      let s := strings.ReplaceAll s ['"'] ['"', '"']
      ['"'] ++ s ++ ['"'])
    strings.Join parts ['.']

/-! ## insert_builder.go: values and field maps -/

/-- A Go value of type `any`, as far as the builder tells values apart: the
`nil` interface, the two string types `Excluded` and `SQLValue` of the
package, a plain `string`, an `int`, and any other dynamic type, which the
code only ever reads through `fmt.Sprint` and which is carried as that
rendering. -/
inductive Value where
  | nil
  | Excluded (v : Str)
  | SQLValue (v : Str)
  | string (v : Str)
  | int (v : Int)
  | other (text : Str)
  deriving DecidableEq, Repr

namespace fmt

/-- Go `fmt.Sprint(v)` for a single operand (the verb `%v`). -/
def Sprint : Value → Str
  | .nil => "<nil>".toList
  | .Excluded v => v
  | .SQLValue v => v
  | .string v => v
  | .int v => strconv.FormatInt v
  | .other text => text

end fmt

/-- Go `map[string]any`: entries with pairwise distinct keys, in the order in
which `range` enumerates them. -/
structure FieldMap where
  entries : List (Str × Value)
  nodup : (entries.map Prod.fst).Nodup

namespace FieldMap

/-- The `nil` map (and the empty map: the code cannot tell them apart). -/
def empty : FieldMap := ⟨[], List.nodup_nil⟩

/-- Number of entries, `len(m)`. -/
def len (m : FieldMap) : Nat := m.entries.length

/-- Keys in enumeration order, `for k := range m`. -/
def keys (m : FieldMap) : List Str := m.entries.map Prod.fst

/-- Index expression `m[key]`: the `nil` interface when the key is absent. -/
def get (m : FieldMap) (key : Str) : Value :=
  match m.entries.lookup key with
  | some v => v
  | none => Value.nil

end FieldMap

/-! ## insert_builder.go: the builder -/

/-- Go `type RowMapper[T any] func(v T) map[string]any`, a total function. -/
abbrev RowMapper (T : Type) := T → FieldMap

/-- Go `type InsertBuilder[T any] struct`. The field `do` is named `do_`
(`do` is reserved in Lean); `buildOnce` is true once `sync.Once` has run. -/
structure InsertBuilder (T : Type) where
  tableName : Str
  values : List T
  valueFn : RowMapper T
  constraint : Str
  do_ : FieldMap
  returning : List Str
  buildOnce : Bool
  sql : Str
  args : List Value

/-- `func NewInsertBuilder`: the remaining fields hold their zero values. -/
def NewInsertBuilder {T : Type} (tableName : Str) (values : List T)
    (valueFn : RowMapper T) : InsertBuilder T :=
  { tableName := tableName, values := values, valueFn := valueFn,
    constraint := [], do_ := FieldMap.empty, returning := [],
    buildOnce := false, sql := [], args := [] }

namespace InsertBuilder

variable {T : Type}

/-- `func (b *InsertBuilder[T]) OnConflictDoNothing`. -/
def OnConflictDoNothing (b : InsertBuilder T) (constraint : Str) : InsertBuilder T :=
  { b with constraint := constraint }

/-- `func (b *InsertBuilder[T]) OnConflictDoUpdate`. -/
def OnConflictDoUpdate (b : InsertBuilder T) (constraint : Str) (do_ : FieldMap) :
    InsertBuilder T :=
  { b with constraint := constraint, do_ := do_ }

/-- `func (b *InsertBuilder[T]) Returning`. -/
def Returning (b : InsertBuilder T) (returning : List Str) : InsertBuilder T :=
  { b with returning := returning }

/-- The loop `for i, k := range keys` that writes the column list; also the
loop `for i, s := range b.returning`, which has the same body. -/
def writeIdents : Nat → List Str → Str → Str
  | _, [], sql => sql
  | i, k :: ks, sql =>
    let sql := if i > 0 then sql ++ ", ".toList else sql
    writeIdents (i + 1) ks (sql ++ ident.Sanitize k)

/-- The loop `for j, key := range keys` that writes one VALUES row; the state
is the text written so far and `b.args`. -/
def writeCells (values : FieldMap) : Nat → List Str → Str × List Value → Str × List Value
  | _, [], st => st
  | j, key :: ks, (sql, args) =>
    let sql := if j > 0 then sql ++ ", ".toList else sql
    match values.get key with
    | Value.SQLValue v => writeCells values (j + 1) ks (sql ++ v, args)
    | v =>
      let args := args ++ [v]
      writeCells values (j + 1) ks
        (sql ++ ['$'] ++ strconv.FormatInt (Int.ofNat args.length), args)

/-- The loop `for i, values := range rows`. -/
def writeRows (keys : List Str) : Nat → List FieldMap → Str × List Value → Str × List Value
  | _, [], st => st
  | i, values :: rest, (sql, args) =>
    let sql := if i = 0 then sql ++ ") VALUES (".toList else sql ++ "), (".toList
    writeRows keys (i + 1) rest (writeCells values 0 keys (sql, args))

/-- The loop `for _, k := range keys` over the sorted keys of `b.do`. -/
def writeDo (do_ : FieldMap) : Bool → List Str → Str → Str
  | _, [], sql => sql
  | sep, k :: ks, sql =>
    let sql := if sep then sql ++ ", ".toList else sql
    let sql := sql ++ ident.Sanitize k
    let sql := sql ++ " = ".toList
    match do_.get k with
    | Value.nil => writeDo do_ true ks (sql ++ "NULL".toList)
    | Value.Excluded v => writeDo do_ true ks (sql ++ "EXCLUDED.".toList ++ ident.Sanitize v)
    | Value.SQLValue v => writeDo do_ true ks (sql ++ v)
    | Value.string v => writeDo do_ true ks (sql ++ ['\''] ++ v ++ ['\''])
    | v => writeDo do_ true ks (sql ++ fmt.Sprint v)

/-- `func (b *InsertBuilder[T]) build`: the body runs when `buildOnce` has not
run yet; `rows[0]` panics on an empty record collection. -/
def build (b : InsertBuilder T) : Option (InsertBuilder T) :=
  if b.buildOnce then some b
  else
    let sql := "INSERT INTO ".toList
    let sql := sql ++ ident.Sanitize b.tableName
    let sql := sql ++ " (".toList
    let rows := b.values.map b.valueFn
    match rows with
    | [] => none
    | rows0 :: _ =>
      let keys := sort.Strings rows0.keys
      let sql := writeIdents 0 keys sql
      let (sql, args) := writeRows keys 0 rows (sql, [])
      let sql := sql ++ [')']
      let sql :=
        if b.constraint ≠ [] then
          let sql := sql ++ " ON CONFLICT ON CONSTRAINT ".toList
          let sql := sql ++ ident.Sanitize b.constraint
          let sql := sql ++ " DO ".toList
          if b.do_.len = 0 then sql ++ "NOTHING".toList
          else
            let sql := sql ++ "UPDATE SET ".toList
            writeDo b.do_ false (sort.Strings b.do_.keys) sql
        else sql
      let sql :=
        if b.returning.length ≠ 0 then
          writeIdents 0 b.returning (sql ++ " RETURNING ".toList)
        else sql
      some { b with buildOnce := true, sql := sql, args := args }

/-- `func (b *InsertBuilder[T]) Build`: the result and the builder after the
call. -/
def Build (b : InsertBuilder T) : Option ((Str × List Value) × InsertBuilder T) :=
  match b.build with
  | none => none
  | some b => some ((b.sql, b.args), b)

/-- The loop `for i, v := range b.args` of `RawSql`. -/
def substituteArgs : Nat → List Value → Str → Str
  | _, [], sql => sql
  | i, v :: vs, sql =>
    let val :=
      match v with
      | Value.string _ => ['\''] ++ fmt.Sprint v ++ ['\'']
      | _ => fmt.Sprint v
    substituteArgs (i + 1) vs
      (strings.ReplaceAll sql (['$'] ++ strconv.FormatInt (Int.ofNat (i + 1))) val)

/-- `func (b *InsertBuilder[T]) RawSql`: the result and the builder after the
call. -/
def RawSql (b : InsertBuilder T) : Option (Str × InsertBuilder T) :=
  match b.build with
  | none => none
  | some b => some (substituteArgs 0 b.args b.sql, b)

end InsertBuilder

/-! ## insert_builder_test.go -/

/-- Go `type InsertEntity struct`. -/
structure InsertEntity where
  A : Str
  B : Str
  C : Str
  D : Str
  deriving DecidableEq

/-- Go `var insertEntities`. -/
def insertEntities : List InsertEntity :=
  [ { A := "a1".toList, B := "b1".toList, C := "c1".toList, D := [] },
    { A := "a2".toList, B := "b2".toList, C := "c2".toList, D := [] },
    { A := "a3".toList, B := "b3".toList, C := "c3".toList, D := [] } ]

/-- Go `var doUpdate`. -/
def doUpdate : FieldMap :=
  ⟨[ ("b".toList, Value.Excluded "b".toList),
     ("updated_at".toList, Value.SQLValue "now()".toList),
     ("d".toList, Value.int 1),
     ("e".toList, Value.nil) ], by decide⟩

/-- The conversion function of `testBuilder`. -/
def testValueFn : RowMapper InsertEntity := fun v =>
  ⟨[ ("a".toList, Value.string v.A),
     ("b".toList, Value.string v.B),
     ("c".toList, Value.SQLValue "now()".toList) ],
   show ["a".toList, "b".toList, "c".toList].Nodup by decide⟩

/-- Go `func testBuilder`. -/
def testBuilder : InsertBuilder InsertEntity :=
  ((NewInsertBuilder "public.test".toList insertEntities testValueFn).OnConflictDoUpdate
    "constraint_name".toList doUpdate).Returning ["b".toList, "c".toList]

/-- The string `expected` of `TestInsertBuilder_Sql`. -/
def testExpected : Str :=
  "INSERT INTO \"public\".\"test\" (\"a\", \"b\", \"c\") VALUES ('a1', 'b1', now()), ('a2', 'b2', now()), ('a3', 'b3', now()) ON CONFLICT ON CONSTRAINT \"constraint_name\" DO UPDATE SET \"b\" = EXCLUDED.\"b\", \"d\" = 1, \"e\" = NULL, \"updated_at\" = now() RETURNING \"b\", \"c\"".toList

/-! ## Reference definitions, written from the specification -/

/-- The strip/double/wrap transform of the specification: a double quote, the
segment without its null bytes and with every double quote written twice, a
double quote. -/
def quoteSegment (s : Str) : Str :=
  ['"'] ++ (s.filter (fun c => c != Char.ofNat 0)).flatMap
    (fun c => if c = '"' then ['"', '"'] else [c]) ++ ['"']

/-- The specification of `Sanitize`: one quoted segment for a name without a
dot; otherwise the name is split on the dot, every piece is quoted on its own,
and the pieces are joined with a dot. -/
def SanitizeSpec (s : Str) : Str :=
  if '.' ∈ s then List.intercalate ['.'] ((s.splitOn '.').map quoteSegment)
  else quoteSegment s

/-- A value that is a raw SQL expression (`SQLValue`). -/
def Value.isRaw : Value → Bool
  | Value.SQLValue _ => true
  | _ => false

/-- A cell of a VALUES row as the specification describes it: raw SQL text,
or a numbered placeholder. -/
inductive Cell where
  | raw (text : Str)
  | param (n : Nat)
  deriving DecidableEq, Repr

namespace Cell

/-- The text of a cell: the raw text verbatim, or `$n`. -/
def render : Cell → Str
  | raw text => text
  | param n => '$' :: Nat.toDigits 10 n

/-- The placeholder number of a cell, if it is a placeholder. -/
def number : Cell → Option Nat
  | raw _ => none
  | param n => some n

/-- The cell `c` stands for the value `v`: the raw text of `v` when `v` is a
raw SQL expression, some placeholder otherwise. -/
def Matches (v : Value) (c : Cell) : Prop :=
  match v, c with
  | Value.SQLValue t, raw text => text = t
  | Value.SQLValue _, param _ => False
  | _, raw _ => False
  | _, param _ => True

end Cell

/-- One parenthesized row: the cells separated by `, `. -/
def renderRow (cells : List Cell) : Str :=
  ['('] ++ strings.Join (cells.map Cell.render) ", ".toList ++ [')']

/-- The VALUES rows: the parenthesized rows separated by `, `. -/
def renderRows (grid : List (List Cell)) : Str :=
  strings.Join (grid.map renderRow) ", ".toList

/-- The cells of one row when `n` placeholders have been used before it. -/
def numberCells : Nat → List Value → List Cell
  | _, [] => []
  | n, Value.SQLValue t :: vs => Cell.raw t :: numberCells n vs
  | n, _ :: vs => Cell.param (n + 1) :: numberCells (n + 1) vs

/-- The values of a row that are bound parameters. -/
def boundValues (vs : List Value) : List Value := vs.filter (fun v => !v.isRaw)

/-- The cells of all rows when `n` placeholders have been used before them. -/
def numberRows : Nat → List (List Value) → List (List Cell)
  | _, [] => []
  | n, vs :: rest => numberCells n vs :: numberRows (n + (boundValues vs).length) rest

namespace InsertBuilder

variable {T : Type}

/-- The column names: the keys of the first record's field map, sorted. -/
def columns (b : InsertBuilder T) : List Str :=
  match b.values with
  | [] => []
  | v :: _ => sort.Strings (b.valueFn v).keys

/-- The value of every (record, column) cell, record by record. -/
def cellValues (b : InsertBuilder T) : List (List Value) :=
  b.values.map (fun v => (columns b).map (b.valueFn v).get)

/-- Steps 1 to 3 of the generation algorithm and the keyword of step 4. -/
def insertHead (b : InsertBuilder T) : Str :=
  "INSERT INTO ".toList ++ ident.Sanitize b.tableName ++ " (".toList
    ++ strings.Join ((columns b).map ident.Sanitize) ", ".toList ++ ") VALUES ".toList

end InsertBuilder

/-- The right-hand side of an assignment of the conflict-update clause. -/
def doValueText : Value → Str
  | Value.nil => "NULL".toList
  | Value.Excluded v => "EXCLUDED.".toList ++ ident.Sanitize v
  | Value.SQLValue v => v
  | Value.string v => ['\''] ++ v ++ ['\'']
  | v => fmt.Sprint v

/-- One assignment of the conflict-update clause. -/
def assignment (do_ : FieldMap) (k : Str) : Str :=
  ident.Sanitize k ++ " = ".toList ++ doValueText (do_.get k)

/-- Step 5 of the generation algorithm. -/
def conflictClause (constraint : Str) (do_ : FieldMap) : Str :=
  if constraint = [] then []
  else
    " ON CONFLICT ON CONSTRAINT ".toList ++ ident.Sanitize constraint ++ " DO ".toList ++
      (if do_.len = 0 then "NOTHING".toList
       else "UPDATE SET ".toList ++
        strings.Join ((sort.Strings do_.keys).map (assignment do_)) ", ".toList)

/-- Step 6 of the generation algorithm. -/
def returningClause (returning : List Str) : Str :=
  if returning = [] then []
  else " RETURNING ".toList ++ strings.Join (returning.map ident.Sanitize) ", ".toList

/-- The text of an argument in `RawSql`: a string in single quotes, any other
value in its default formatting. -/
def argText : Value → Str
  | Value.string v => ['\''] ++ v ++ ['\'']
  | v => fmt.Sprint v

/-- The text of a cell once the placeholder `$n` is replaced by the text of the
`n`-th argument. -/
def Cell.substitute (args : List Value) : Cell → Str
  | Cell.raw text => text
  | Cell.param n => argText (args.getD (n - 1) Value.nil)

/-- The debug rendering of the specification: the generated statement with
every placeholder replaced by the text of its argument. -/
def rawSqlSpec {T : Type} (b : InsertBuilder T) : Str :=
  b.insertHead
    ++ strings.Join ((numberRows 0 b.cellValues).map (fun cells =>
        ['('] ++ strings.Join (cells.map (Cell.substitute (boundValues b.cellValues.flatten)))
          ", ".toList ++ [')'])) ", ".toList
    ++ conflictClause b.constraint b.do_ ++ returningClause b.returning

/-- A call of a method of the builder. -/
inductive Call where
  | OnConflictDoNothing (constraint : Str)
  | OnConflictDoUpdate (constraint : Str) (do_ : FieldMap)
  | Returning (returning : List Str)
  | Build
  | RawSql

/-- The builder after one call; `none` when the call panics. -/
def Call.run {T : Type} (b : InsertBuilder T) : Call → Option (InsertBuilder T)
  | Call.OnConflictDoNothing c => some (b.OnConflictDoNothing c)
  | Call.OnConflictDoUpdate c m => some (b.OnConflictDoUpdate c m)
  | Call.Returning r => some (b.Returning r)
  | Call.Build => b.Build.map Prod.snd
  | Call.RawSql => b.RawSql.map Prod.snd

/-- The builder after a sequence of calls. -/
def runCalls {T : Type} : List Call → InsertBuilder T → Option (InsertBuilder T)
  | [], b => some b
  | c :: cs, b =>
    match c.run b with
    | none => none
    | some b1 => runCalls cs b1

/-- The builder holds the result `r` of a generation that has run. -/
def Cached {T : Type} (r : Str × List Value) (b : InsertBuilder T) : Prop :=
  b.buildOnce = true ∧ b.sql = r.1 ∧ b.args = r.2

/-- A builder with ten records of one bound column each. -/
def tenBuilder : InsertBuilder Str :=
  NewInsertBuilder "t".toList
    ["a".toList, "b".toList, "c".toList, "d".toList, "e".toList, "f".toList,
     "g".toList, "h".toList, "i".toList, "j".toList]
    (fun v => ⟨[("x".toList, Value.string v)], by simp⟩)

/-- Every double quote of the text is one half of an adjacent pair of double
quotes, reading from the left. -/
def quotesPaired : Str → Bool
  | [] => true
  | [c] => c != '"'
  | c :: d :: rest =>
    if c = '"' then d == '"' && quotesPaired rest else quotesPaired (d :: rest)

/-- The text with every adjacent pair of double quotes collapsed to one. -/
def collapseQuotes : Str → Str
  | [] => []
  | [c] => [c]
  | c :: d :: rest =>
    if c = '"' ∧ d = '"' then '"' :: collapseQuotes rest else c :: collapseQuotes (d :: rest)

/-- The inverse reading of a quoted identifier: split on the dot, drop the
first and the last character of every piece, collapse the doubled double
quotes, join with a dot. -/
def unsanitize (q : Str) : Str :=
  List.intercalate ['.'] ((q.splitOn '.').map (fun p => collapseQuotes (p.drop 1).dropLast))

/-- The text with every double quote written twice. -/
def doubleQuotes (u : Str) : Str := u.flatMap (fun c => if c = '"' then ['"', '"'] else [c])

/-- One record with the bound column `a`, an update map set by
`OnConflictDoUpdate`, then `OnConflictDoNothing` as the last conflict call. -/
def nothingAfterUpdate : InsertBuilder Int :=
  ((NewInsertBuilder "t".toList [1] (fun v => ⟨[("a".toList, Value.int v)], by simp⟩)).OnConflictDoUpdate
    "c1".toList ⟨[("a".toList, Value.Excluded "a".toList)], by simp⟩).OnConflictDoNothing
    "c2".toList

/-- The text ` ON CONFLICT ON CONSTRAINT ` that opens the conflict clause. -/
def conflictKeyword : Str := " ON CONFLICT ON CONSTRAINT ".toList

/-- A builder without conflict configuration whose table name is the text
` ON CONFLICT ON CONSTRAINT `. -/
def keywordTable : InsertBuilder Int :=
  NewInsertBuilder conflictKeyword [1] (fun v => ⟨[("a".toList, Value.int v)], by simp⟩)

/-- The builder of the test file with every map enumerated in another order. -/
def testBuilderReordered : InsertBuilder InsertEntity :=
  ((NewInsertBuilder "public.test".toList insertEntities (fun v =>
      ⟨[ ("c".toList, Value.SQLValue "now()".toList),
         ("b".toList, Value.string v.B),
         ("a".toList, Value.string v.A) ],
       show ["c".toList, "b".toList, "a".toList].Nodup by decide⟩)).OnConflictDoUpdate
    "constraint_name".toList
    ⟨[ ("e".toList, Value.nil),
       ("updated_at".toList, Value.SQLValue "now()".toList),
       ("b".toList, Value.Excluded "b".toList),
       ("d".toList, Value.int 1) ], by decide⟩).Returning ["b".toList, "c".toList]

/-- Two cell values carry the same raw SQL expression, if any: when one of
them is a raw SQL expression, they are equal. -/
def Value.SameRaw (v1 v2 : Value) : Prop :=
  (v1.isRaw = true ∨ v2.isRaw = true) → v1 = v2

instance Value.decidableSameRaw (v1 v2 : Value) : Decidable (Value.SameRaw v1 v2) := by
  unfold Value.SameRaw; infer_instance

/-- The builder of the test file with other values in the bound cells. -/
def testBuilderOtherValues : InsertBuilder Int :=
  ((NewInsertBuilder "public.test".toList [10, 20, 30] (fun v =>
      ⟨[ ("a".toList, Value.int v),
         ("b".toList, Value.nil),
         ("c".toList, Value.SQLValue "now()".toList) ],
       show ["a".toList, "b".toList, "c".toList].Nodup by decide⟩)).OnConflictDoUpdate
    "constraint_name".toList doUpdate).Returning ["b".toList, "c".toList]

/-- The cell `c` stands for the value `v` in a statement with the arguments
`args`: the raw text of `v`, or a placeholder whose argument is `v`. -/
def Cell.Binds (args : List Value) (v : Value) : Cell → Prop
  | Cell.raw text => v = Value.SQLValue text
  | Cell.param n => v.isRaw = false ∧ 1 ≤ n ∧ args[n - 1]? = some v

/-- The builder of the test file whose later records lack the key `b` and
carry a key `z` that the first record does not have. -/
def testBuilderRagged : InsertBuilder InsertEntity :=
  ((NewInsertBuilder "public.test".toList insertEntities (fun v =>
      if v.A = "a1".toList then testValueFn v
      else
        ⟨[ ("a".toList, Value.string v.A),
           ("z".toList, Value.string v.B),
           ("c".toList, Value.SQLValue "now()".toList) ],
         show ["a".toList, "z".toList, "c".toList].Nodup by decide⟩)).OnConflictDoUpdate
    "constraint_name".toList doUpdate).Returning ["b".toList, "c".toList]

/-- The builder `testBuilderRagged` without the key `z` in the later records. -/
def testBuilderRaggedPlain : InsertBuilder InsertEntity :=
  ((NewInsertBuilder "public.test".toList insertEntities (fun v =>
      if v.A = "a1".toList then testValueFn v
      else
        ⟨[ ("a".toList, Value.string v.A),
           ("c".toList, Value.SQLValue "now()".toList) ],
         show ["a".toList, "c".toList].Nodup by decide⟩)).OnConflictDoUpdate
    "constraint_name".toList doUpdate).Returning ["b".toList, "c".toList]

/-- The cell after the placeholder `$i` has been replaced by the text `val`. -/
def Cell.fill (i : Nat) (val : Str) : Cell → Cell
  | Cell.param n => if n = i then Cell.raw val else Cell.param n
  | Cell.raw text => Cell.raw text

/-- A cell without `$` outside a one-digit placeholder. -/
def Cell.Plain : Cell → Prop
  | Cell.raw text => '$' ∉ text
  | Cell.param n => 1 ≤ n ∧ n ≤ 9

/-- The cell after the loop of `RawSql` has run over the arguments `vs`, the
first of which has the number `i + 1`. -/
def Cell.fillAll : Nat → List Value → Cell → Cell
  | _, [], c => c
  | i, v :: vs, c => Cell.fillAll (i + 1) vs (c.fill (i + 1) (argText v))

/-- The number of `$` of a cell outside its placeholder sign. -/
def Cell.extraDollars : Cell → Nat
  | Cell.raw text => text.count '$'
  | Cell.param n => (Nat.toDigits 10 n).count '$'

/-! ## Lemmas on the library functions -/

theorem replaceAll_single (c : Char) (new s : Str) :
    strings.ReplaceAll s [c] new = s.flatMap (fun x => if x = c then new else [x]) := by
  have h : ∀ t : Str, strings.replaceFrom [c] new 0 t
      = t.flatMap (fun x => if x = c then new else [x]) := by
    intro t
    induction t with
    | nil => rfl
    | cons x xs ih =>
      by_cases hx : x = c
      · subst hx
        simp [strings.replaceFrom, List.isPrefixOf, ih]
      · have hx2 : ¬ c = x := fun h => hx h.symm
        simp [strings.replaceFrom, List.isPrefixOf, ih, hx, hx2]
  simp [strings.ReplaceAll, h]

theorem join_eq_intercalate (sep : Str) (l : List Str) :
    strings.Join l sep = List.intercalate sep l := by
  cases l with
  | nil => rfl
  | cons e rest =>
    simp only [strings.Join, List.intercalate]
    induction rest generalizing e with
    | nil => simp
    | cons r rs ih =>
      simp only [List.flatMap_cons, List.intersperse, List.flatten_cons]
      rw [← ih r]
      simp

theorem split_single (c : Char) (s : Str) :
    strings.Split s [c] = s.splitOn c := by
  have h : ∀ (t cur : Str), strings.splitFrom [c] 0 cur t
      = List.modifyHead (fun p => cur ++ p) (t.splitOn c) := by
    intro t
    induction t with
    | nil => intro cur; simp [strings.splitFrom, List.splitOn, List.modifyHead]
    | cons x xs ih =>
      intro cur
      rw [List.splitOn, List.splitOnP_cons]
      by_cases hx : x = c
      · subst hx
        simp [strings.splitFrom, List.isPrefixOf, ih, List.modifyHead, List.splitOn]
        cases List.splitOnP (fun y => y == x) xs <;> simp [List.modifyHead]
      · have hx2 : ¬ c = x := fun h => hx h.symm
        simp [strings.splitFrom, List.isPrefixOf, ih, hx, hx2, List.splitOn]
        cases List.splitOnP (fun y => y == c) xs <;> simp [List.modifyHead]
  simp only [strings.Split, h]
  simp [List.modifyHead]
  cases s.splitOn c <;> simp [List.modifyHead]

theorem quote_eq_quoteSegment (s : Str) :
    ['"'] ++ strings.ReplaceAll (strings.ReplaceAll s [Char.ofNat 0] []) ['"'] ['"', '"'] ++ ['"']
      = quoteSegment s := by
  rw [replaceAll_single, replaceAll_single]
  unfold quoteSegment
  congr 2
  induction s with
  | nil => rfl
  | cons x xs ih =>
    by_cases hx : x = Char.ofNat 0
    · subst hx; simpa using ih
    · simp [List.filter_cons, hx]
      simpa using ih

/-! ## Lemmas on the loops of `build` -/

theorem formatInt_ofNat (n : Nat) : strconv.FormatInt (Int.ofNat n) = Nat.toDigits 10 n := by
  simp [strconv.FormatInt]

theorem formatInt_succ (n : Nat) :
    strconv.FormatInt ((n : Int) + 1) = Nat.toDigits 10 (n + 1) := by
  have h := formatInt_ofNat (n + 1)
  simpa using h

theorem join_cons (e : Str) (rest : List Str) (sep : Str) :
    strings.Join (e :: rest) sep = e ++ rest.flatMap (fun s => sep ++ s) := rfl

theorem writeIdents_succ (ks : List Str) : ∀ (i : Nat) (sql : Str),
    InsertBuilder.writeIdents (i + 1) ks sql
      = sql ++ (ks.map ident.Sanitize).flatMap (fun s => ", ".toList ++ s) := by
  induction ks with
  | nil => intro i sql; simp [InsertBuilder.writeIdents]
  | cons k ks ih =>
    intro i sql
    simp [InsertBuilder.writeIdents, ih, List.append_assoc]

theorem writeIdents_zero (ks : List Str) (sql : Str) :
    InsertBuilder.writeIdents 0 ks sql
      = sql ++ strings.Join (ks.map ident.Sanitize) ", ".toList := by
  cases ks with
  | nil => simp [InsertBuilder.writeIdents, strings.Join]
  | cons k ks =>
    simp [InsertBuilder.writeIdents, writeIdents_succ, strings.Join, List.append_assoc]

theorem writeCells_succ (values : FieldMap) (ks : List Str) :
    ∀ (j : Nat) (sql : Str) (args : List Value),
    InsertBuilder.writeCells values (j + 1) ks (sql, args)
      = (sql ++ (numberCells args.length (ks.map values.get)).flatMap
            (fun c => ", ".toList ++ c.render),
         args ++ boundValues (ks.map values.get)) := by
  induction ks with
  | nil => intro j sql args; simp [InsertBuilder.writeCells, numberCells, boundValues]
  | cons k ks ih =>
    intro j sql args
    cases hv : values.get k <;>
      simp [InsertBuilder.writeCells, hv, ih, numberCells, boundValues, Value.isRaw,
        Cell.render, formatInt_succ, List.append_assoc]

theorem writeCells_zero (values : FieldMap) (ks : List Str) (sql : Str) (args : List Value) :
    InsertBuilder.writeCells values 0 ks (sql, args)
      = (sql ++ strings.Join ((numberCells args.length (ks.map values.get)).map Cell.render)
            ", ".toList,
         args ++ boundValues (ks.map values.get)) := by
  cases ks with
  | nil => simp [InsertBuilder.writeCells, numberCells, boundValues, strings.Join]
  | cons k ks =>
    cases hv : values.get k <;>
      simp [InsertBuilder.writeCells, hv, writeCells_succ, numberCells, boundValues,
        Value.isRaw, Cell.render, formatInt_succ, List.append_assoc, strings.Join,
        List.flatMap_map]

theorem boundValues_append (xs ys : List Value) :
    boundValues (xs ++ ys) = boundValues xs ++ boundValues ys := by
  simp [boundValues]

theorem writeRows_succ (keys : List Str) (rows : List FieldMap) :
    ∀ (i : Nat) (sql : Str) (args : List Value),
    InsertBuilder.writeRows keys (i + 1) rows (sql, args)
      = (sql ++ (numberRows args.length (rows.map (fun r => keys.map r.get))).flatMap
            (fun cells => "), (".toList ++ strings.Join (cells.map Cell.render) ", ".toList),
         args ++ boundValues (rows.map (fun r => keys.map r.get)).flatten) := by
  induction rows with
  | nil => intro i sql args; simp [InsertBuilder.writeRows, numberRows, boundValues]
  | cons r rows ih =>
    intro i sql args
    simp [InsertBuilder.writeRows, writeCells_zero, ih, numberRows, boundValues_append,
      List.append_assoc]

theorem flatMap_shift (p : Str) (f : List Cell → Str) (gs : List (List Cell)) :
    gs.flatMap (fun g => p ++ f g) ++ p = p ++ gs.flatMap (fun g => f g ++ p) := by
  induction gs with
  | nil => simp
  | cons g gs ih => simp [List.append_assoc, ih]

theorem writeRows_zero (keys : List Str) (r : FieldMap) (rows : List FieldMap) (sql : Str) :
    let st := InsertBuilder.writeRows keys 0 (r :: rows) (sql, [])
    st.1 ++ [')'] = sql ++ ") VALUES ".toList
        ++ renderRows (numberRows 0 ((r :: rows).map (fun r => keys.map r.get)))
      ∧ st.2 = boundValues ((r :: rows).map (fun r => keys.map r.get)).flatten := by
  have h1 : ") VALUES (".toList = ") VALUES ".toList ++ ['('] := by decide
  have h2 : ∀ t : Str, "), (".toList ++ t = [')'] ++ (", ".toList ++ ['('] ++ t) := by
    intro t; rfl
  simp only [InsertBuilder.writeRows, if_true, writeCells_zero, writeRows_succ]
  constructor
  · simp only [h1, h2, List.append_assoc, flatMap_shift, renderRows, renderRow, numberRows,
      List.map_cons, join_cons, List.flatMap_map, List.length_nil, Nat.zero_add,
      List.nil_append, List.length_append]
  · simp [boundValues_append]

theorem writeDo_step (do_ : FieldMap) (sep : Bool) (k : Str) (ks : List Str) (sql : Str) :
    InsertBuilder.writeDo do_ sep (k :: ks) sql
      = InsertBuilder.writeDo do_ true ks
          ((if sep then sql ++ ", ".toList else sql) ++ assignment do_ k) := by
  cases hv : do_.get k <;>
    simp [InsertBuilder.writeDo, hv, assignment, doValueText, fmt.Sprint, List.append_assoc]

theorem writeDo_true (do_ : FieldMap) (ks : List Str) : ∀ (sql : Str),
    InsertBuilder.writeDo do_ true ks sql
      = sql ++ (ks.map (assignment do_)).flatMap (fun s => ", ".toList ++ s) := by
  induction ks with
  | nil => intro sql; simp [InsertBuilder.writeDo]
  | cons k ks ih => intro sql; rw [writeDo_step, ih]; simp [List.append_assoc]

theorem writeDo_false (do_ : FieldMap) (ks : List Str) (sql : Str) :
    InsertBuilder.writeDo do_ false ks sql
      = sql ++ strings.Join (ks.map (assignment do_)) ", ".toList := by
  cases ks with
  | nil => simp [InsertBuilder.writeDo, strings.Join]
  | cons k ks => rw [writeDo_step, writeDo_true]; simp [strings.Join, List.append_assoc]

/-- The text that generation produces, by the steps of the specification. -/
theorem build_eq {T : Type} (b : InsertBuilder T) (hb : b.buildOnce = false)
    (hne : b.values ≠ []) :
    b.build = some { b with
      buildOnce := true
      sql := b.insertHead ++ renderRows (numberRows 0 b.cellValues)
        ++ conflictClause b.constraint b.do_ ++ returningClause b.returning
      args := boundValues b.cellValues.flatten } := by
  obtain ⟨tableName, values, valueFn, constraint, do_, returning, buildOnce, sql, args⟩ := b
  simp only at hb hne
  subst hb
  cases values with
  | nil => exact absurd rfl hne
  | cons v vs =>
    have hrows := writeRows_zero (sort.Strings (valueFn v).keys) (valueFn v) (vs.map valueFn)
      ("INSERT INTO ".toList ++ ident.Sanitize tableName ++ " (".toList
        ++ strings.Join ((sort.Strings (valueFn v).keys).map ident.Sanitize) ", ".toList)
    simp only at hrows
    obtain ⟨h1, h2⟩ := hrows
    simp only [InsertBuilder.build, Bool.false_eq_true, if_false, List.map_cons,
      writeIdents_zero, writeDo_false]
    simp only [InsertBuilder.insertHead, InsertBuilder.cellValues, InsertBuilder.columns,
      conflictClause, returningClause, List.map_cons, List.map_map, Function.comp_def]
    simp only [List.map_cons, List.map_map, Function.comp_def] at h1 h2
    generalize InsertBuilder.writeRows _ _ _ _ = st at h1 h2 ⊢
    obtain ⟨s, a⟩ := st
    simp only at h1 h2
    subst h2
    have hr : (returning.length ≠ 0) = (¬ returning = []) := by
      simp [List.length_eq_zero]
    simp only [hr]
    by_cases hc : constraint = [] <;> by_cases hret : returning = [] <;>
      by_cases hd : do_.len = 0 <;>
      simp [hc, hret, hd, h1, List.append_assoc]

theorem Build_eq {T : Type} (b : InsertBuilder T) (hb : b.buildOnce = false)
    (hne : b.values ≠ []) :
    b.Build = some
      ((b.insertHead ++ renderRows (numberRows 0 b.cellValues)
          ++ conflictClause b.constraint b.do_ ++ returningClause b.returning,
        boundValues b.cellValues.flatten),
       { b with
          buildOnce := true
          sql := b.insertHead ++ renderRows (numberRows 0 b.cellValues)
            ++ conflictClause b.constraint b.do_ ++ returningClause b.returning
          args := boundValues b.cellValues.flatten }) := by
  simp [InsertBuilder.Build, build_eq b hb hne]

/-! ## Lemmas on the numbering of the cells -/

theorem numberCells_matches (vs : List Value) : ∀ n : Nat,
    List.Forall₂ Cell.Matches vs (numberCells n vs) := by
  induction vs with
  | nil => intro n; exact List.Forall₂.nil
  | cons v vs ih =>
    intro n
    cases v <;> simp [numberCells, Cell.Matches, ih]

theorem numberRows_matches (grid : List (List Value)) : ∀ n : Nat,
    List.Forall₂ (List.Forall₂ Cell.Matches) grid (numberRows n grid) := by
  induction grid with
  | nil => intro n; exact List.Forall₂.nil
  | cons vs grid ih =>
    intro n
    exact List.Forall₂.cons (numberCells_matches vs n) (ih _)

theorem numberCells_numbers (vs : List Value) : ∀ n : Nat,
    (numberCells n vs).filterMap Cell.number = List.range' (n + 1) (boundValues vs).length := by
  induction vs with
  | nil => intro n; simp [numberCells, boundValues]
  | cons v vs ih =>
    intro n
    cases v <;>
      simp [numberCells, Cell.number, boundValues, Value.isRaw, List.range'_succ] <;>
      simpa [boundValues] using ih _

theorem numberRows_numbers (grid : List (List Value)) : ∀ n : Nat,
    (numberRows n grid).flatten.filterMap Cell.number
      = List.range' (n + 1) (boundValues grid.flatten).length := by
  induction grid with
  | nil => intro n; simp [numberRows, boundValues]
  | cons vs grid ih =>
    intro n
    simp only [numberRows, List.flatten_cons, List.filterMap_append, numberCells_numbers, ih,
      boundValues_append, List.length_append]
    rw [Nat.add_right_comm n _ 1, List.range'_append_1, Nat.add_comm]
    rw [Nat.add_comm (boundValues grid.flatten).length]

/-! ## Lemmas on the sorted keys

The order on strings is the lexicographic order on the character codes, a
proper prefix coming first: the order of Go's `<` on strings. -/

theorem str_nil_lt_cons (c : Char) (s : Str) : ([] : Str) < c :: s := List.Lex.nil

theorem str_not_lt_nil (s : Str) : ¬ s < ([] : Str) := by
  intro h; cases h

theorem str_cons_lt_cons (a b : Char) (s t : Str) :
    (a :: s : Str) < b :: t ↔ a.toNat < b.toNat ∨ (a = b ∧ s < t) := by
  constructor
  · intro h
    cases h with
    | cons h => exact Or.inr ⟨rfl, h⟩
    | rel h => exact Or.inl h
  · rintro (h | ⟨rfl, h⟩)
    · exact List.Lex.rel h
    · exact List.Lex.cons h

theorem str_le_iff (s t : Str) : s ≤ t ↔ s < t ∨ s = t := le_iff_lt_or_eq

theorem sortStrings_perm (l : List Str) : (sort.Strings l).Perm l :=
  List.perm_insertionSort _ l

theorem sortStrings_sorted (l : List Str) : (sort.Strings l).Sorted (· ≤ ·) :=
  List.sorted_insertionSort _ l

theorem sortStrings_strict (l : List Str) (h : l.Nodup) : (sort.Strings l).Sorted (· < ·) :=
  (sortStrings_sorted l).lt_of_le ((sortStrings_perm l).nodup_iff.mpr h)

theorem renderRows_cons (g : List Cell) (gs : List (List Cell)) :
    ∃ rest : Str, renderRows (g :: gs) = '(' :: rest := by
  exact ⟨(strings.Join (g.map Cell.render) ", ".toList ++ [')'])
    ++ (gs.map renderRow).flatMap (fun s => ", ".toList ++ s), rfl⟩

theorem flatMap_sep_last (sep : Str) (gs : List (List Cell)) :
    (gs.map renderRow).flatMap (fun s => sep ++ s) = [] ∨
    ∃ front : Str, (gs.map renderRow).flatMap (fun s => sep ++ s) = front ++ [')'] := by
  induction gs with
  | nil => left; rfl
  | cons g gs ih =>
    right
    rcases ih with h | ⟨front, h⟩
    · refine ⟨sep ++ (['('] ++ strings.Join (g.map Cell.render) ", ".toList), ?_⟩
      rw [List.map_cons, List.flatMap_cons, h, renderRow, List.append_nil]
      simp only [List.append_assoc]
    · refine ⟨sep ++ renderRow g ++ front, ?_⟩
      rw [List.map_cons, List.flatMap_cons, h]
      simp only [List.append_assoc]

theorem renderRows_last (g : List Cell) (gs : List (List Cell)) :
    ∃ front : Str, renderRows (g :: gs) = front ++ [')'] := by
  rcases flatMap_sep_last ", ".toList gs with h | ⟨front, h⟩
  · refine ⟨['('] ++ strings.Join (g.map Cell.render) ", ".toList, ?_⟩
    rw [renderRows, List.map_cons, join_cons, h, renderRow, List.append_nil]
  · refine ⟨renderRow g ++ front, ?_⟩
    rw [renderRows, List.map_cons, join_cons, h, List.append_assoc]

theorem numberRows_ne_nil {T : Type} (b : InsertBuilder T) (hne : b.values ≠ []) :
    ∃ g gs, numberRows 0 b.cellValues = g :: gs := by
  cases hv : b.values with
  | nil => exact absurd hv hne
  | cons v vs => simp [InsertBuilder.cellValues, hv, numberRows]

theorem conflictClause_nil (do_ : FieldMap) : conflictClause [] do_ = [] := by
  simp [conflictClause]

theorem returningClause_nil : returningClause [] = [] := by
  simp [returningClause]

/-! ## Lemmas on the cached result -/

theorem build_of_cached {T : Type} (r : Str × List Value) (b : InsertBuilder T)
    (h : Cached r b) : b.build = some b := by
  simp [InsertBuilder.build, h.1]

theorem Build_of_cached {T : Type} (r : Str × List Value) (b : InsertBuilder T)
    (h : Cached r b) : b.Build = some (r, b) := by
  obtain ⟨h1, h2, h3⟩ := h
  have hb : b.build = some b := build_of_cached r b ⟨h1, h2, h3⟩
  simp [InsertBuilder.Build, hb, h2, h3]

theorem run_cached {T : Type} (r : Str × List Value) (b : InsertBuilder T) (h : Cached r b)
    (c : Call) : ∃ b1, c.run b = some b1 ∧ Cached r b1 := by
  cases c with
  | OnConflictDoNothing c => exact ⟨_, rfl, h⟩
  | OnConflictDoUpdate c m => exact ⟨_, rfl, h⟩
  | Returning l => exact ⟨_, rfl, h⟩
  | Build => exact ⟨b, by simp [Call.run, Build_of_cached r b h], h⟩
  | RawSql => exact ⟨b, by simp [Call.run, InsertBuilder.RawSql, build_of_cached r b h], h⟩

theorem runCalls_cached {T : Type} (r : Str × List Value) (calls : List Call) :
    ∀ b : InsertBuilder T, Cached r b → ∃ b1, runCalls calls b = some b1 ∧ Cached r b1 := by
  induction calls with
  | nil => intro b h; exact ⟨b, rfl, h⟩
  | cons c cs ih =>
    intro b h
    obtain ⟨b1, h1, hc1⟩ := run_cached r b h c
    obtain ⟨b2, h2, hc2⟩ := ih b1 hc1
    exact ⟨b2, by simp [runCalls, h1, h2], hc2⟩

theorem build_some {T : Type} (b : InsertBuilder T) (hne : b.values ≠ []) :
    ∃ b1, b.build = some b1 ∧ Cached (b1.sql, b1.args) b1 := by
  cases hb : b.buildOnce with
  | true => exact ⟨b, build_of_cached (b.sql, b.args) b ⟨hb, rfl, rfl⟩, hb, rfl, rfl⟩
  | false => exact ⟨_, build_eq b hb hne, rfl, rfl, rfl⟩

/-! ## Lemmas on the shape of a sanitized identifier -/

theorem quoteSegment_eq (s : Str) :
    quoteSegment s = ['"'] ++ doubleQuotes (s.filter (fun c => c != Char.ofNat 0)) ++ ['"'] := rfl

theorem doubleQuotes_cons (c : Char) (u : Str) :
    doubleQuotes (c :: u) = (if c = '"' then ['"', '"'] else [c]) ++ doubleQuotes u := by
  simp [doubleQuotes]

theorem quotesPaired_doubleQuotes (u : Str) : quotesPaired (doubleQuotes u) = true := by
  induction u with
  | nil => rfl
  | cons c u ih =>
    rw [doubleQuotes_cons]
    by_cases hc : c = '"'
    · simp [hc, quotesPaired, ih]
    · simp only [hc, if_false, List.singleton_append]
      cases hd : doubleQuotes u with
      | nil => simp [quotesPaired, hc]
      | cons d rest => rw [hd] at ih; simp [quotesPaired, hc, ih]

theorem collapseQuotes_doubleQuotes (u : Str) : collapseQuotes (doubleQuotes u) = u := by
  induction u with
  | nil => rfl
  | cons c u ih =>
    rw [doubleQuotes_cons]
    by_cases hc : c = '"'
    · simp [hc, collapseQuotes, ih]
    · simp only [hc, if_false, List.singleton_append]
      cases hd : doubleQuotes u with
      | nil => rw [hd] at ih; simp [collapseQuotes, ← ih]
      | cons d rest => rw [hd] at ih; simp [collapseQuotes, hc, ih]

theorem splitOn_not_mem (c : Char) (s : Str) (h : c ∉ s) : s.splitOn c = [s] := by
  induction s with
  | nil => rfl
  | cons x xs ih =>
    have hx : ¬ x = c := fun e => h (by simp [e])
    have hxs : c ∉ xs := fun e => h (List.mem_cons_of_mem _ e)
    rw [List.splitOn, List.splitOnP_cons]
    have := ih hxs
    rw [List.splitOn] at this
    simp [hx, this, List.modifyHead]

theorem not_mem_of_mem_splitOn (c : Char) (s : Str) : ∀ p ∈ s.splitOn c, c ∉ p := by
  induction s with
  | nil => intro p hp; simp [List.splitOn, List.splitOnP_nil] at hp; simp [hp]
  | cons x xs ih =>
    intro p hp
    rw [List.splitOn, List.splitOnP_cons] at hp
    rw [List.splitOn] at ih
    by_cases hx : x = c
    · simp [hx] at hp
      rcases hp with rfl | hp
      · simp
      · exact ih p hp
    · simp [hx] at hp
      cases hs : List.splitOnP (fun y => y == c) xs with
      | nil => rw [hs] at hp; simp [List.modifyHead] at hp
      | cons q qs =>
        rw [hs] at hp ih
        simp [List.modifyHead] at hp
        rcases hp with rfl | hp
        · have := ih q (by simp)
          simp [this, Ne.symm hx]
        · exact ih p (by simp [hp])

theorem sanitizeSpec_uniform (s : Str) :
    SanitizeSpec s = List.intercalate ['.'] ((s.splitOn '.').map quoteSegment) := by
  unfold SanitizeSpec
  by_cases h : '.' ∈ s
  · simp [h]
  · simp [h, splitOn_not_mem '.' s h, List.intercalate]


theorem length_splitOn (c : Char) (s : Str) : (s.splitOn c).length = s.count c + 1 := by
  induction s with
  | nil => rfl
  | cons x xs ih =>
    rw [List.splitOn, List.splitOnP_cons]
    rw [List.splitOn] at ih
    by_cases hx : x = c
    · simp [hx, ih]
    · have hlen : ∀ l : List Str, (List.modifyHead (List.cons x) l).length = l.length := by
        intro l; cases l <;> simp [List.modifyHead]
      simp [hx, hlen, ih, List.count_cons]

theorem count_join (q : Char) (sep : Str) (hq : q ∉ sep) (ls : List Str) :
    (strings.Join ls sep).count q = (ls.map (List.count q)).sum := by
  have hsep : sep.count q = 0 := List.count_eq_zero.mpr hq
  cases ls with
  | nil => rfl
  | cons e rest =>
    rw [join_cons, List.count_append, List.map_cons, List.sum_cons]
    congr 1
    induction rest with
    | nil => rfl
    | cons r rs ih =>
      rw [List.flatMap_cons, List.count_append, List.count_append, hsep, ih, List.map_cons,
        List.sum_cons, Nat.zero_add]

theorem mem_join (x : Char) (sep : Str) (ls : List Str) (h : x ∈ strings.Join ls sep) :
    x ∈ sep ∨ ∃ l ∈ ls, x ∈ l := by
  cases ls with
  | nil => simp [strings.Join] at h
  | cons e rest =>
    rw [join_cons, List.mem_append, List.mem_flatMap] at h
    rcases h with h | ⟨l, hl, h⟩
    · exact Or.inr ⟨e, by simp, h⟩
    · rcases List.mem_append.mp h with h | h
      · exact Or.inl h
      · exact Or.inr ⟨l, List.mem_cons_of_mem _ hl, h⟩

theorem mem_doubleQuotes (x : Char) (u : Str) (h : x ∈ doubleQuotes u) : x = '"' ∨ x ∈ u := by
  rw [doubleQuotes, List.mem_flatMap] at h
  obtain ⟨c, hc, hx⟩ := h
  by_cases hq : c = '"'
  · simp [hq] at hx; exact Or.inl hx
  · simp [hq] at hx; exact Or.inr (hx ▸ hc)

theorem count_doubleQuotes (u : Str) : (doubleQuotes u).count '"' = 2 * u.count '"' := by
  induction u with
  | nil => rfl
  | cons c u ih =>
    rw [doubleQuotes_cons, List.count_append, ih, List.count_cons]
    by_cases hc : c = '"'
    · subst hc; simp; omega
    · have : ¬ ('"' = c) := fun e => hc e.symm
      simp [hc, List.count_cons, this]

theorem count_quoteSegment (p : Str) : (quoteSegment p).count '"' = 2 + 2 * p.count '"' := by
  have hf : (p.filter (fun c => c != Char.ofNat 0)).count '"' = p.count '"' := by
    induction p with
    | nil => rfl
    | cons c p ih =>
      by_cases hc : c = Char.ofNat 0
      · subst hc
        have : ¬ (Char.ofNat 0 = '"') := by decide
        simp [List.filter_cons, List.count_cons, ih, this]
      · simp [List.filter_cons, hc, List.count_cons, ih]
  rw [quoteSegment_eq, List.count_append, List.count_append, count_doubleQuotes, hf]
  simp
  omega

theorem sanitize_eq_spec (s : Str) : ident.Sanitize s = SanitizeSpec s := by
  unfold ident.Sanitize SanitizeSpec
  by_cases h : '.' ∈ s
  · have hc : strings.ContainsRune s '.' = true := by
      simpa [strings.ContainsRune] using h
    simp only [hc, h, if_true, Bool.not_true, Bool.false_eq_true, if_false]
    rw [join_eq_intercalate, split_single]
    congr 1
    apply List.map_congr_left
    intro p _
    exact quote_eq_quoteSegment p
  · have hc : strings.ContainsRune s '.' = false := by
      simpa [strings.ContainsRune] using h
    simp only [hc, h, if_false, Bool.not_false, if_true]
    exact quote_eq_quoteSegment s

theorem sanitize_eq_join (s : Str) :
    ident.Sanitize s = strings.Join ((s.splitOn '.').map quoteSegment) ['.'] := by
  rw [sanitize_eq_spec s, sanitizeSpec_uniform, join_eq_intercalate]

theorem sum_count_splitOn (q c : Char) (hq : q ≠ c) (s : Str) :
    ((s.splitOn c).map (List.count q)).sum = s.count q := by
  have h := count_join q [c] (by simpa using hq) (s.splitOn c)
  rw [join_eq_intercalate, List.intercalate_splitOn] at h
  exact h.symm

theorem filter_intercalate (p : Char → Bool) (c : Char) (hc : p c = true) (ls : List Str) :
    (List.intercalate [c] ls).filter p = List.intercalate [c] (ls.map (List.filter p)) := by
  rw [← join_eq_intercalate, ← join_eq_intercalate]
  cases ls with
  | nil => rfl
  | cons e rest =>
    rw [List.map_cons, join_cons, join_cons, List.filter_append]
    congr 1
    induction rest with
    | nil => rfl
    | cons r rs ih =>
      rw [List.map_cons, List.flatMap_cons, List.flatMap_cons, List.filter_append, ih]
      simp [List.filter_cons, hc]

theorem unsanitize_sanitize (s : Str) :
    unsanitize (ident.Sanitize s) = s.filter (fun c => c != Char.ofNat 0) := by
  have hsplit : (ident.Sanitize s).splitOn '.' = (s.splitOn '.').map quoteSegment := by
    rw [sanitize_eq_spec, sanitizeSpec_uniform]
    apply List.splitOn_intercalate
    · intro l hl
      obtain ⟨p, hp, rfl⟩ := List.mem_map.mp hl
      intro hmem
      rw [quoteSegment_eq] at hmem
      simp only [List.mem_append, List.mem_singleton] at hmem
      rcases hmem with (h | h) | h
      · exact absurd h (by decide)
      · rcases mem_doubleQuotes _ _ h with h | h
        · exact absurd h (by decide)
        · exact not_mem_of_mem_splitOn '.' s p hp (List.mem_of_mem_filter h)
      · exact absurd h (by decide)
    · simpa [List.splitOn] using List.splitOnP_ne_nil _ s
  have hpiece : ∀ p : Str, collapseQuotes ((quoteSegment p).drop 1).dropLast
      = p.filter (fun c => c != Char.ofNat 0) := by
    intro p
    rw [quoteSegment_eq]
    simp [collapseQuotes_doubleQuotes]
  rw [unsanitize, hsplit, List.map_map]
  have : ((fun p => collapseQuotes (List.drop 1 p).dropLast) ∘ quoteSegment)
      = List.filter (fun c => c != Char.ofNat 0) := by
    funext p; exact hpiece p
  rw [this, ← filter_intercalate _ '.' (by decide), List.intercalate_splitOn]

/-! ## Lemmas on failure and on the conflict clause -/

theorem build_none_iff {T : Type} (b : InsertBuilder T) (hb : b.buildOnce = false) :
    b.build = none ↔ b.values = [] := by
  constructor
  · intro h
    by_contra hne
    rw [build_eq b hb hne] at h
    exact Option.noConfusion h
  · intro h
    simp [InsertBuilder.build, hb, h]

theorem isInfix_conflictClause (c : Str) (hc : c ≠ []) (do_ : FieldMap) (pre post : Str) :
    List.IsInfix conflictKeyword (pre ++ conflictClause c do_ ++ post) := by
  refine ⟨pre, ident.Sanitize c ++ " DO ".toList ++
      (if do_.len = 0 then "NOTHING".toList
       else "UPDATE SET ".toList ++
        strings.Join ((sort.Strings do_.keys).map (assignment do_)) ", ".toList) ++ post, ?_⟩
  simp only [conflictClause, hc, if_false, conflictKeyword, List.append_assoc]

/-! ## Lemmas on field maps and on the cells of the rows -/

theorem lookup_eq_some_of_nodup (l : List (Str × Value)) (h : (l.map Prod.fst).Nodup)
    (k : Str) (v : Value) : l.lookup k = some v ↔ (k, v) ∈ l := by
  induction l with
  | nil => simp
  | cons p l ih =>
    obtain ⟨k1, v1⟩ := p
    rw [List.map_cons, List.nodup_cons] at h
    by_cases hk : k = k1
    · subst hk
      have hnot : ∀ w, (k, w) ∉ l := fun w hw => h.1 (List.mem_map.mpr ⟨(k, w), hw, rfl⟩)
      simp [List.lookup, hnot, eq_comm]
    · have : (k == k1) = false := by simpa using hk
      simp [List.lookup, this, ih h.2, hk]

theorem get_eq_of_perm (m1 m2 : FieldMap) (h : m1.entries.Perm m2.entries) (k : Str) :
    m1.get k = m2.get k := by
  have hl : m1.entries.lookup k = m2.entries.lookup k := by
    apply Option.ext
    intro v
    simp only [Option.mem_def]
    rw [lookup_eq_some_of_nodup _ m1.nodup, lookup_eq_some_of_nodup _ m2.nodup]
    exact h.mem_iff
  simp only [FieldMap.get, hl]

theorem sortStrings_eq_of_perm (l1 l2 : List Str) (h : l1.Perm l2) :
    sort.Strings l1 = sort.Strings l2 :=
  List.eq_of_perm_of_sorted (((sortStrings_perm l1).trans h).trans (sortStrings_perm l2).symm)
    (sortStrings_sorted l1) (sortStrings_sorted l2)

theorem get_eq_nil_of_not_mem (m : FieldMap) (k : Str) (h : k ∉ m.keys) :
    m.get k = Value.nil := by
  have : m.entries.lookup k = none := by
    cases hl : m.entries.lookup k with
    | none => rfl
    | some v =>
      exact absurd (List.mem_map.mpr
        ⟨(k, v), (lookup_eq_some_of_nodup _ m.nodup k v).mp hl, rfl⟩) h
  simp [FieldMap.get, this]

theorem columns_congr {T : Type} (b1 b2 : InsertBuilder T) (hv : b1.values = b2.values)
    (hfn : ∀ v ∈ b1.values, (b1.valueFn v).entries.Perm (b2.valueFn v).entries) :
    b1.columns = b2.columns := by
  unfold InsertBuilder.columns
  rw [← hv]
  cases hvs : b1.values with
  | nil => rfl
  | cons v vs =>
    have := hfn v (by rw [hvs]; exact List.mem_cons_self _ _)
    exact sortStrings_eq_of_perm _ _ (this.map Prod.fst)

theorem cellValues_congr {T : Type} (b1 b2 : InsertBuilder T) (hv : b1.values = b2.values)
    (hcols : b1.columns = b2.columns)
    (hget : ∀ v ∈ b1.values, ∀ k ∈ b1.columns, (b1.valueFn v).get k = (b2.valueFn v).get k) :
    b1.cellValues = b2.cellValues := by
  unfold InsertBuilder.cellValues
  rw [← hv, ← hcols]
  apply List.map_congr_left
  intro v hvm
  apply List.map_congr_left
  intro k hk
  exact hget v hvm k hk

theorem insertHead_congr {T1 T2 : Type} (b1 : InsertBuilder T1) (b2 : InsertBuilder T2)
    (ht : b1.tableName = b2.tableName) (hcols : b1.columns = b2.columns) :
    b1.insertHead = b2.insertHead := by
  unfold InsertBuilder.insertHead
  rw [ht, hcols]

theorem conflictClause_congr (c : Str) (m1 m2 : FieldMap) (h : m1.entries.Perm m2.entries) :
    conflictClause c m1 = conflictClause c m2 := by
  have hk : sort.Strings m1.keys = sort.Strings m2.keys :=
    sortStrings_eq_of_perm _ _ (h.map Prod.fst)
  have hl : m1.len = m2.len := h.length_eq
  have ha : assignment m1 = assignment m2 := by
    funext k
    simp only [assignment, get_eq_of_perm m1 m2 h k]
  simp only [conflictClause, hk, hl, ha]

theorem numberCells_cons_bound (n : Nat) (v : Value) (vs : List Value)
    (h : v.isRaw = false) :
    numberCells n (v :: vs) = Cell.param (n + 1) :: numberCells (n + 1) vs := by
  cases v <;> simp [Value.isRaw] at h <;> rfl

theorem boundValues_cons_bound (v : Value) (vs : List Value) (h : v.isRaw = false) :
    boundValues (v :: vs) = v :: boundValues vs := by
  simp [boundValues, h]

theorem boundValues_cons_raw (v : Value) (vs : List Value) (h : v.isRaw = true) :
    boundValues (v :: vs) = boundValues vs := by
  simp [boundValues, h]

theorem numberCells_congr : ∀ (vs1 vs2 : List Value), List.Forall₂ Value.SameRaw vs1 vs2 →
    ∀ n : Nat, numberCells n vs1 = numberCells n vs2
      ∧ (boundValues vs1).length = (boundValues vs2).length
  | [], [], _, _ => ⟨rfl, rfl⟩
  | [], _ :: _, h, _ => by cases h
  | _ :: _, [], h, _ => by cases h
  | a :: l1, b :: l2, h, n => by
    have hab : Value.SameRaw a b := (List.forall₂_cons.mp h).1
    have ih := numberCells_congr l1 l2 (List.forall₂_cons.mp h).2
    by_cases hraw : a.isRaw = true ∨ b.isRaw = true
    · have heq : a = b := hab hraw
      subst heq
      have ha : a.isRaw = true := by rcases hraw with h | h <;> exact h
      cases a <;> simp [Value.isRaw] at ha
      simp only [numberCells, boundValues_cons_raw _ _ (rfl : (Value.SQLValue _).isRaw = true)]
      exact ⟨by rw [(ih n).1], (ih n).2⟩
    · have ha : a.isRaw = false := by
        cases h1 : a.isRaw
        · rfl
        · exact absurd (Or.inl h1) hraw
      have hb : b.isRaw = false := by
        cases h1 : b.isRaw
        · rfl
        · exact absurd (Or.inr h1) hraw
      rw [numberCells_cons_bound n a l1 ha, numberCells_cons_bound n b l2 hb,
        boundValues_cons_bound a l1 ha, boundValues_cons_bound b l2 hb]
      exact ⟨by rw [(ih (n + 1)).1], by simp [(ih n).2]⟩

theorem numberRows_congr (g1 g2 : List (List Value))
    (h : List.Forall₂ (List.Forall₂ Value.SameRaw) g1 g2) :
    ∀ n : Nat, numberRows n g1 = numberRows n g2 := by
  induction h with
  | nil => intro n; rfl
  | cons hab _ ih =>
    intro n
    simp only [numberRows, (numberCells_congr _ _ hab n).1, (numberCells_congr _ _ hab n).2, ih]

theorem numberCells_binds (vs : List Value) : ∀ (n : Nat) (pre post : List Value),
    pre.length = n →
    List.Forall₂ (Cell.Binds (pre ++ boundValues vs ++ post)) vs (numberCells n vs) := by
  induction vs with
  | nil => intro n pre post _; exact List.Forall₂.nil
  | cons v vs ih =>
    intro n pre post hn
    by_cases hraw : v.isRaw = true
    · rw [boundValues_cons_raw _ _ hraw]
      cases v <;> simp [Value.isRaw] at hraw
      exact List.Forall₂.cons rfl (ih n pre post hn)
    · have hv : v.isRaw = false := by
        cases h1 : v.isRaw
        · rfl
        · exact absurd h1 hraw
      rw [numberCells_cons_bound n v vs hv, boundValues_cons_bound v vs hv]
      refine List.Forall₂.cons ⟨hv, Nat.succ_le_succ (Nat.zero_le n), ?_⟩ ?_
      · subst hn
        rw [Nat.add_sub_cancel, List.append_assoc,
          List.getElem?_append_right (Nat.le_refl _), Nat.sub_self]
        simp
      · have := ih (n + 1) (pre ++ [v]) post (by simp [hn])
        simpa [List.append_assoc] using this

theorem numberRows_binds (grid : List (List Value)) : ∀ (n : Nat) (pre post : List Value),
    pre.length = n →
    List.Forall₂ (List.Forall₂ (Cell.Binds (pre ++ boundValues grid.flatten ++ post)))
      grid (numberRows n grid) := by
  induction grid with
  | nil => intro n pre post _; exact List.Forall₂.nil
  | cons row grid ih =>
    intro n pre post hn
    rw [List.flatten_cons, boundValues_append]
    refine List.Forall₂.cons ?_ ?_
    · have := numberCells_binds row n pre (boundValues grid.flatten ++ post) hn
      simpa [List.append_assoc] using this
    · have := ih (n + (boundValues row).length) (pre ++ boundValues row) post (by simp [hn])
      simpa [List.append_assoc] using this

theorem numberCells_length (vs : List Value) : ∀ n : Nat,
    (numberCells n vs).length = vs.length := fun n =>
  ((numberCells_matches vs n).length_eq).symm

theorem numberRows_row_length (grid : List (List Value)) (len : Nat)
    (h : ∀ vals ∈ grid, vals.length = len) : ∀ n : Nat, ∀ row ∈ numberRows n grid,
    row.length = len := by
  induction grid with
  | nil => intro n row hrow; simp [numberRows] at hrow
  | cons vals grid ih =>
    intro n row hrow
    simp only [numberRows, List.mem_cons] at hrow
    rcases hrow with rfl | hrow
    · rw [numberCells_length]; exact h vals (List.mem_cons_self _ _)
    · exact ih (fun w hw => h w (List.mem_cons_of_mem _ hw)) _ row hrow

/-! ## Lemmas on the replacement loop of `RawSql` -/

theorem toDigits_one_digit : ∀ n < 10, Nat.toDigits 10 n = [Nat.digitChar n] := by decide

theorem digitChar_ne_dollar : ∀ n < 10, Nat.digitChar n ≠ '$' := by decide

theorem digitChar_inj : ∀ n < 10, ∀ m < 10, Nat.digitChar n = Nat.digitChar m → n = m := by
  decide

theorem replaceFrom_plain (ds new : Str) (s : Str) (hs : '$' ∉ s) (rest : Str) :
    strings.replaceFrom ('$' :: ds) new 0 (s ++ rest)
      = s ++ strings.replaceFrom ('$' :: ds) new 0 rest := by
  induction s with
  | nil => rfl
  | cons c s ih =>
    have hc : ¬ ('$' = c) := fun e => hs (e ▸ List.mem_cons_self _ _)
    have hs2 : '$' ∉ s := fun e => hs (List.mem_cons_of_mem _ e)
    simp [strings.replaceFrom, List.isPrefixOf, hc, ih hs2]

theorem replaceFrom_param (i n : Nat) (hi : i < 10) (hn : n < 10) (new rest : Str) :
    strings.replaceFrom ('$' :: Nat.toDigits 10 i) new 0 ('$' :: Nat.toDigits 10 n ++ rest)
      = (if n = i then new else '$' :: Nat.toDigits 10 n)
        ++ strings.replaceFrom ('$' :: Nat.toDigits 10 i) new 0 rest := by
  rw [toDigits_one_digit i hi, toDigits_one_digit n hn]
  by_cases h : n = i
  · subst h
    simp [strings.replaceFrom, List.isPrefixOf]
  · have hd : ¬ (Nat.digitChar i = Nat.digitChar n) :=
      fun e => h (digitChar_inj i hi n hn e).symm
    have hd2 : ¬ ('$' = Nat.digitChar n) := fun e => digitChar_ne_dollar n hn e.symm
    simp [strings.replaceFrom, List.isPrefixOf, h, hd, hd2]

theorem replaceFrom_cell (i : Nat) (hi : i < 10) (new : Str) (c : Cell) (hc : c.Plain)
    (rest : Str) :
    strings.replaceFrom ('$' :: Nat.toDigits 10 i) new 0 (c.render ++ rest)
      = (c.fill i new).render ++ strings.replaceFrom ('$' :: Nat.toDigits 10 i) new 0 rest := by
  cases c with
  | raw t => exact replaceFrom_plain _ _ t hc rest
  | param n =>
    have hn : n < 10 := Nat.lt_succ_of_le hc.2
    have h1 := replaceFrom_param i n hi hn new rest
    by_cases h : n = i
    · simp only [h, if_true] at h1
      simp only [Cell.render, Cell.fill, h, if_true]
      exact h1
    · simp only [h, if_false] at h1
      simp only [Cell.render, Cell.fill, h, if_false]
      exact h1

theorem replace_sep_items {α : Type} (R : Str → Str) (ρ : α → Str) (φ : α → α)
    (P : α → Prop) (sep : Str) (hsep : ∀ rest, R (sep ++ rest) = sep ++ R rest)
    (hitem : ∀ a, P a → ∀ rest, R (ρ a ++ rest) = ρ (φ a) ++ R rest)
    (l : List α) (hl : ∀ a ∈ l, P a) (rest : Str) :
    R ((l.map ρ).flatMap (fun s => sep ++ s) ++ rest)
      = ((l.map φ).map ρ).flatMap (fun s => sep ++ s) ++ R rest := by
  induction l with
  | nil => rfl
  | cons a l ih =>
    have ha := hl a (List.mem_cons_self _ _)
    have hl2 : ∀ x ∈ l, P x := fun x hx => hl x (List.mem_cons_of_mem _ hx)
    simp only [List.map_cons, List.flatMap_cons, List.append_assoc]
    rw [hsep, hitem a ha, ih hl2]

theorem replace_join {α : Type} (R : Str → Str) (ρ : α → Str) (φ : α → α)
    (P : α → Prop) (sep : Str) (hsep : ∀ rest, R (sep ++ rest) = sep ++ R rest)
    (hitem : ∀ a, P a → ∀ rest, R (ρ a ++ rest) = ρ (φ a) ++ R rest)
    (l : List α) (hl : ∀ a ∈ l, P a) (rest : Str) :
    R (strings.Join (l.map ρ) sep ++ rest)
      = strings.Join ((l.map φ).map ρ) sep ++ R rest := by
  cases l with
  | nil => rfl
  | cons a l =>
    have ha := hl a (List.mem_cons_self _ _)
    have hl2 : ∀ x ∈ l, P x := fun x hx => hl x (List.mem_cons_of_mem _ hx)
    simp only [List.map_cons, join_cons, List.append_assoc]
    rw [hitem a ha, replace_sep_items R ρ φ P sep hsep hitem l hl2]

theorem replaceFrom_row (i : Nat) (hi : i < 10) (new : Str) (cells : List Cell)
    (hc : ∀ c ∈ cells, c.Plain) (rest : Str) :
    strings.replaceFrom ('$' :: Nat.toDigits 10 i) new 0 (renderRow cells ++ rest)
      = renderRow (cells.map (Cell.fill i new))
        ++ strings.replaceFrom ('$' :: Nat.toDigits 10 i) new 0 rest := by
  have hsep : ∀ r : Str, strings.replaceFrom ('$' :: Nat.toDigits 10 i) new 0 (", ".toList ++ r)
      = ", ".toList ++ strings.replaceFrom ('$' :: Nat.toDigits 10 i) new 0 r :=
    fun r => replaceFrom_plain _ _ _ (by decide) r
  have hopen : ∀ r : Str, strings.replaceFrom ('$' :: Nat.toDigits 10 i) new 0 (['('] ++ r)
      = ['('] ++ strings.replaceFrom ('$' :: Nat.toDigits 10 i) new 0 r :=
    fun r => replaceFrom_plain _ _ _ (by decide) r
  have hclose : ∀ r : Str, strings.replaceFrom ('$' :: Nat.toDigits 10 i) new 0 ([')'] ++ r)
      = [')'] ++ strings.replaceFrom ('$' :: Nat.toDigits 10 i) new 0 r :=
    fun r => replaceFrom_plain _ _ _ (by decide) r
  simp only [renderRow, List.append_assoc]
  rw [hopen, replace_join _ Cell.render (Cell.fill i new) Cell.Plain _ hsep
    (fun c hcp r => replaceFrom_cell i hi new c hcp r) cells hc, hclose]

theorem replaceFrom_rows (i : Nat) (hi : i < 10) (new : Str) (grid : List (List Cell))
    (hg : ∀ row ∈ grid, ∀ c ∈ row, c.Plain) (rest : Str) :
    strings.replaceFrom ('$' :: Nat.toDigits 10 i) new 0 (renderRows grid ++ rest)
      = renderRows (grid.map (List.map (Cell.fill i new)))
        ++ strings.replaceFrom ('$' :: Nat.toDigits 10 i) new 0 rest := by
  have hsep : ∀ r : Str, strings.replaceFrom ('$' :: Nat.toDigits 10 i) new 0 (", ".toList ++ r)
      = ", ".toList ++ strings.replaceFrom ('$' :: Nat.toDigits 10 i) new 0 r :=
    fun r => replaceFrom_plain _ _ _ (by decide) r
  exact replace_join _ renderRow (List.map (Cell.fill i new)) (fun row => ∀ c ∈ row, c.Plain)
    _ hsep (fun row hrow r => replaceFrom_row i hi new row hrow r) grid hg rest

theorem replaceAll_statement (i : Nat) (hi : i < 10) (new head tail : Str)
    (hh : '$' ∉ head) (ht : '$' ∉ tail) (grid : List (List Cell))
    (hg : ∀ row ∈ grid, ∀ c ∈ row, c.Plain) :
    strings.ReplaceAll (head ++ renderRows grid ++ tail) (['$'] ++ Nat.toDigits 10 i) new
      = head ++ renderRows (grid.map (List.map (Cell.fill i new))) ++ tail := by
  show strings.ReplaceAll (head ++ renderRows grid ++ tail) ('$' :: Nat.toDigits 10 i) new
      = head ++ renderRows (grid.map (List.map (Cell.fill i new))) ++ tail
  have htail : strings.replaceFrom ('$' :: Nat.toDigits 10 i) new 0 tail = tail := by
    have := replaceFrom_plain (Nat.toDigits 10 i) new tail ht []
    simpa [strings.replaceFrom] using this
  simp only [strings.ReplaceAll, List.cons_ne_nil, if_false, List.append_assoc]
  rw [replaceFrom_plain _ _ head hh, replaceFrom_rows i hi new grid hg, htail]

theorem fill_plain (i : Nat) (val : Str) (hval : '$' ∉ val) (c : Cell) (hc : c.Plain) :
    (c.fill i val).Plain := by
  cases c with
  | raw t => exact hc
  | param n =>
    by_cases h : n = i
    · simp only [Cell.fill, h, if_true]; exact hval
    · simp only [Cell.fill, h, if_false]; exact hc

theorem fillAll_raw (vs : List Value) : ∀ (i : Nat) (t : Str),
    Cell.fillAll i vs (Cell.raw t) = Cell.raw t := by
  induction vs with
  | nil => intro i t; rfl
  | cons v vs ih => intro i t; exact ih (i + 1) t

theorem fillAll_param (vs : List Value) : ∀ (i n : Nat),
    Cell.fillAll i vs (Cell.param n)
      = if i < n ∧ n ≤ i + vs.length then Cell.raw (argText (vs.getD (n - 1 - i) Value.nil))
        else Cell.param n := by
  induction vs with
  | nil =>
    intro i n
    have : ¬ (i < n ∧ n ≤ i + 0) := by omega
    simp only [Cell.fillAll, List.length_nil, this, if_false]
  | cons v vs ih =>
    intro i n
    simp only [Cell.fillAll, Cell.fill, List.length_cons]
    by_cases h : n = i + 1
    · subst h
      have h1 : i < i + 1 ∧ i + 1 ≤ i + (vs.length + 1) := by omega
      have h2 : i + 1 - 1 - i = 0 := by omega
      rw [if_pos rfl, fillAll_raw, if_pos h1, h2]
      rfl
    · simp only [h, if_false, ih]
      by_cases h2 : i + 1 < n ∧ n ≤ i + 1 + vs.length
      · have h3 : i < n ∧ n ≤ i + (vs.length + 1) := by omega
        have h4 : n - 1 - i = (n - 1 - (i + 1)) + 1 := by omega
        simp only [h2, h3, and_self, if_true, h4, List.getD_cons_succ]
      · have h3 : ¬ (i < n ∧ n ≤ i + (vs.length + 1)) := by omega
        simp only [h2, h3, if_false]

theorem substituteArgs_cons (i : Nat) (v : Value) (vs : List Value) (sql : Str) :
    InsertBuilder.substituteArgs i (v :: vs) sql
      = InsertBuilder.substituteArgs (i + 1) vs
          (strings.ReplaceAll sql (['$'] ++ Nat.toDigits 10 (i + 1)) (argText v)) := by
  cases v <;> simp only [InsertBuilder.substituteArgs, argText, formatInt_ofNat, fmt.Sprint]

theorem substituteArgs_statement (head tail : Str) (hh : '$' ∉ head) (ht : '$' ∉ tail)
    (vs : List Value) : ∀ (i : Nat) (grid : List (List Cell)),
    i + vs.length ≤ 9 → (∀ v ∈ vs, '$' ∉ argText v) →
    (∀ row ∈ grid, ∀ c ∈ row, c.Plain) →
    InsertBuilder.substituteArgs i vs (head ++ renderRows grid ++ tail)
      = head ++ renderRows (grid.map (List.map (Cell.fillAll i vs))) ++ tail := by
  induction vs with
  | nil =>
    intro i grid _ _ _
    have : (Cell.fillAll i [] : Cell → Cell) = id := rfl
    simp [InsertBuilder.substituteArgs, this]
  | cons v vs ih =>
    intro i grid hlen hvs hg
    have hv : '$' ∉ argText v := hvs v (List.mem_cons_self _ _)
    have hvs2 : ∀ w ∈ vs, '$' ∉ argText w := fun w hw => hvs w (List.mem_cons_of_mem _ hw)
    have hi : i + 1 < 10 := by simp only [List.length_cons] at hlen; omega
    have hlen2 : i + 1 + vs.length ≤ 9 := by simp only [List.length_cons] at hlen; omega
    have hg2 : ∀ row ∈ grid.map (List.map (Cell.fill (i + 1) (argText v))), ∀ c ∈ row,
        c.Plain := by
      intro row hrow c hc
      obtain ⟨row0, hrow0, rfl⟩ := List.mem_map.mp hrow
      obtain ⟨c0, hc0, rfl⟩ := List.mem_map.mp hc
      exact fill_plain _ _ hv c0 (hg row0 hrow0 c0 hc0)
    rw [substituteArgs_cons, replaceAll_statement (i + 1) hi (argText v) head tail hh ht grid hg,
      ih (i + 1) _ hlen2 hvs2 hg2]
    have hcomp : (List.map (Cell.fillAll (i + 1) vs) ∘ List.map (Cell.fill (i + 1) (argText v)))
        = List.map (Cell.fillAll i (v :: vs)) := by
      funext row
      simp only [Function.comp_apply, List.map_map]
      rfl
    rw [List.map_map, hcomp]

theorem param_bounds (grid : List (List Value)) (row : List Cell)
    (hrow : row ∈ numberRows 0 grid) (n : Nat) (hn : Cell.param n ∈ row) :
    1 ≤ n ∧ n ≤ (boundValues grid.flatten).length := by
  have hmem : n ∈ (numberRows 0 grid).flatten.filterMap Cell.number :=
    List.mem_filterMap.mpr ⟨Cell.param n, List.mem_flatten.mpr ⟨row, hrow, hn⟩, rfl⟩
  rw [numberRows_numbers] at hmem
  have := List.mem_range'_1.mp hmem
  omega

theorem count_renderRow (cells : List Cell) :
    (renderRow cells).count '$' = (cells.map (fun c => c.render.count '$')).sum := by
  rw [renderRow, List.count_append, List.count_append, count_join '$' _ (by decide),
    List.map_map]
  have h1 : List.count '$' ['('] = 0 := by decide
  have h2 : List.count '$' [')'] = 0 := by decide
  rw [h1, h2, Nat.zero_add, Nat.add_zero]
  rfl

theorem count_renderRows (grid : List (List Cell)) :
    (renderRows grid).count '$' = (grid.flatten.map (fun c => c.render.count '$')).sum := by
  rw [renderRows, count_join '$' _ (by decide), List.map_map]
  induction grid with
  | nil => rfl
  | cons row grid ih =>
    rw [List.map_cons, List.sum_cons, ih, List.flatten_cons, List.map_append, List.sum_append]
    simp only [Function.comp_apply, count_renderRow]

theorem count_cells (cells : List Cell) :
    (cells.map (fun c => c.render.count '$')).sum
      = (cells.filterMap Cell.number).length + (cells.map Cell.extraDollars).sum := by
  induction cells with
  | nil => rfl
  | cons c cells ih =>
    cases c with
    | raw t =>
      rw [List.map_cons, List.sum_cons, ih, List.filterMap_cons_none (by rfl), List.map_cons,
        List.sum_cons]
      show t.count '$' + _ = _ + (t.count '$' + _)
      omega
    | param n =>
      rw [List.map_cons, List.sum_cons, ih, List.filterMap_cons_some (by rfl), List.map_cons,
        List.sum_cons, List.length_cons]
      show ('$' :: Nat.toDigits 10 n).count '$' + _ = _ + ((Nat.toDigits 10 n).count '$' + _)
      rw [List.count_cons_self]
      omega

theorem plain_of_count (head tail : Str) (cv : List (List Value))
    (h9 : (boundValues cv.flatten).length ≤ 9)
    (hcount : (head ++ renderRows (numberRows 0 cv) ++ tail).count '$'
      = (boundValues cv.flatten).length) :
    '$' ∉ head ∧ '$' ∉ tail ∧ ∀ row ∈ numberRows 0 cv, ∀ c ∈ row, c.Plain := by
  rw [List.count_append, List.count_append, count_renderRows, count_cells,
    numberRows_numbers, List.length_range'] at hcount
  have hhead : head.count '$' = 0 := by omega
  have htail : tail.count '$' = 0 := by omega
  have hextra : ((numberRows 0 cv).flatten.map Cell.extraDollars).sum = 0 := by omega
  refine ⟨List.count_eq_zero.mp hhead, List.count_eq_zero.mp htail, ?_⟩
  intro row hrow c hc
  cases c with
  | raw t =>
    have hmem : Cell.extraDollars (Cell.raw t) ∈ (numberRows 0 cv).flatten.map Cell.extraDollars :=
      List.mem_map.mpr ⟨_, List.mem_flatten.mpr ⟨row, hrow, hc⟩, rfl⟩
    have hz := List.sum_eq_zero_iff.mp hextra _ hmem
    exact List.count_eq_zero.mp hz
  | param n =>
    have := param_bounds cv row hrow n hc
    exact ⟨this.1, Nat.le_trans this.2 h9⟩

theorem substitute_eq_fillAll (args : List Value) (c : Cell)
    (hc : ∀ n, c = Cell.param n → 1 ≤ n ∧ n ≤ args.length) :
    (Cell.fillAll 0 args c).render = Cell.substitute args c := by
  cases c with
  | raw t => rw [fillAll_raw]; rfl
  | param n =>
    have h := hc n rfl
    have hcond : 0 < n ∧ n ≤ 0 + args.length := by omega
    rw [fillAll_param, if_pos hcond, Nat.sub_zero]
    rfl

theorem rawSql_of_plain {T : Type} (b : InsertBuilder T) (hb : b.buildOnce = false)
    (hne : b.values ≠ []) (h9 : (boundValues b.cellValues.flatten).length ≤ 9)
    (hargs : ∀ v ∈ boundValues b.cellValues.flatten, '$' ∉ argText v)
    (hhead : '$' ∉ b.insertHead)
    (htail : '$' ∉ conflictClause b.constraint b.do_ ++ returningClause b.returning)
    (hplain : ∀ row ∈ numberRows 0 b.cellValues, ∀ c ∈ row, c.Plain) :
    b.RawSql.map Prod.fst = some (rawSqlSpec b) := by
  have hsub := substituteArgs_statement b.insertHead
    (conflictClause b.constraint b.do_ ++ returningClause b.returning) hhead htail
    (boundValues b.cellValues.flatten) 0 (numberRows 0 b.cellValues)
    (by rw [Nat.zero_add]; exact h9) hargs hplain
  have hrows : renderRows ((numberRows 0 b.cellValues).map
        (List.map (Cell.fillAll 0 (boundValues b.cellValues.flatten))))
      = strings.Join ((numberRows 0 b.cellValues).map (fun cells =>
          ['('] ++ strings.Join
            (cells.map (Cell.substitute (boundValues b.cellValues.flatten)))
            ", ".toList ++ [')'])) ", ".toList := by
    rw [renderRows, List.map_map]
    refine congrArg (fun l => strings.Join l ", ".toList) ?_
    apply List.map_congr_left
    intro row hrow
    rw [Function.comp_apply, renderRow, List.map_map]
    refine congrArg (fun l => ['('] ++ strings.Join l ", ".toList ++ [')']) ?_
    apply List.map_congr_left
    intro c hc
    exact substitute_eq_fillAll _ c
      (fun n hn => param_bounds b.cellValues row hrow n (hn ▸ hc))
  rw [hrows] at hsub
  rw [InsertBuilder.RawSql, build_eq b hb hne]
  show some (InsertBuilder.substituteArgs 0 (boundValues b.cellValues.flatten)
    (b.insertHead ++ renderRows (numberRows 0 b.cellValues)
      ++ conflictClause b.constraint b.do_ ++ returningClause b.returning)) = _
  rw [List.append_assoc _ (conflictClause b.constraint b.do_), hsub, rawSqlSpec,
    ← List.append_assoc _ (conflictClause b.constraint b.do_)]

/-! ## Main theorems -/

/-- C1: for every string `s`, `Sanitize s` is the reference `SanitizeSpec s`
(one quoted segment when `s` has no dot, the dot-join of the independently
quoted pieces otherwise); and `Sanitize "public.test"` is `"public"."test"`. -/
theorem C1_sanitize_eq_spec :
    (∀ s : Str, ident.Sanitize s = SanitizeSpec s) ∧
    ident.Sanitize "public.test".toList = "\"public\".\"test\"".toList := by
  refine ⟨fun s => ?_, by decide⟩
  unfold ident.Sanitize SanitizeSpec
  by_cases h : '.' ∈ s
  · have hc : strings.ContainsRune s '.' = true := by
      simpa [strings.ContainsRune] using h
    simp only [hc, h, if_true, Bool.not_true, Bool.false_eq_true, if_false]
    rw [join_eq_intercalate, split_single]
    congr 1
    apply List.map_congr_left
    intro p _
    exact quote_eq_quoteSegment p
  · have hc : strings.ContainsRune s '.' = false := by
      simpa [strings.ContainsRune] using h
    simp only [hc, h, if_false, Bool.not_false, if_true]
    exact quote_eq_quoteSegment s


/-- C2: when generation runs on a builder with at least one record, the SQL
text is the head, the rendering of a grid of cells and the conflict and
returning clauses; the grid has one cell per (record, column), a placeholder
exactly where the value is not a raw SQL expression; read row by row, the
placeholder numbers are `1, 2, ..., n` (strictly increasing, never reset),
where `n` is the length of the argument list and the number of cells whose
value is not a raw SQL expression. -/
theorem C2_placeholder_numbering {T : Type} (b : InsertBuilder T)
    (hb : b.buildOnce = false) (hne : b.values ≠ []) :
    ∃ (sql : Str) (args : List Value) (b1 : InsertBuilder T) (grid : List (List Cell)),
      b.Build = some ((sql, args), b1) ∧
      sql = b.insertHead ++ renderRows grid
        ++ conflictClause b.constraint b.do_ ++ returningClause b.returning ∧
      List.Forall₂ (List.Forall₂ Cell.Matches) b.cellValues grid ∧
      grid.flatten.filterMap Cell.number = List.range' 1 args.length ∧
      (grid.flatten.filterMap Cell.number).Sorted (· < ·) ∧
      args.length = (b.cellValues.flatten.filter (fun v => !v.isRaw)).length := by
  refine ⟨_, _, _, numberRows 0 b.cellValues, Build_eq b hb hne, rfl,
    numberRows_matches _ 0, ?_, ?_, rfl⟩
  · simpa using numberRows_numbers b.cellValues 0
  · rw [numberRows_numbers]
    exact List.pairwise_lt_range' _ _

/-- C2 at the builder of the test file. -/
theorem C2_placeholder_numbering_witness :
    testBuilder.buildOnce = false ∧ testBuilder.values ≠ [] ∧
    ∃ (sql : Str) (args : List Value) (b1 : InsertBuilder InsertEntity)
      (grid : List (List Cell)),
      testBuilder.Build = some ((sql, args), b1) ∧
      sql = testBuilder.insertHead ++ renderRows grid
        ++ conflictClause testBuilder.constraint testBuilder.do_
        ++ returningClause testBuilder.returning ∧
      List.Forall₂ (List.Forall₂ Cell.Matches) testBuilder.cellValues grid ∧
      grid.flatten.filterMap Cell.number = List.range' 1 args.length ∧
      (grid.flatten.filterMap Cell.number).Sorted (· < ·) ∧
      args.length = (testBuilder.cellValues.flatten.filter (fun v => !v.isRaw)).length :=
  ⟨rfl, by decide, C2_placeholder_numbering testBuilder rfl (by decide)⟩

/-- C3: when generation runs on a builder with at least one record, the VALUES
part is one parenthesized row per record, in record order, separated by `, `;
the cells of a row follow the sorted columns and are separated by `, `; a raw
SQL expression is written verbatim, every other cell is a placeholder; and the
argument list is the list of the values that are not raw SQL expressions, in
row-major order. -/
theorem C3_rows_and_arguments {T : Type} (b : InsertBuilder T) (v : T) (vs : List T)
    (hb : b.buildOnce = false) (hv : b.values = v :: vs) :
    ∃ (sql : Str) (args : List Value) (b1 : InsertBuilder T) (grid : List (List Cell)),
      b.Build = some ((sql, args), b1) ∧
      sql = b.insertHead
        ++ strings.Join (grid.map (fun cells =>
            ['('] ++ strings.Join (cells.map Cell.render) ", ".toList ++ [')'])) ", ".toList
        ++ conflictClause b.constraint b.do_ ++ returningClause b.returning ∧
      List.Forall₂ (List.Forall₂ Cell.Matches)
        ((v :: vs).map (fun r => (sort.Strings (b.valueFn v).keys).map (b.valueFn r).get))
        grid ∧
      args = (((v :: vs).map (fun r =>
          (sort.Strings (b.valueFn v).keys).map (b.valueFn r).get)).flatten).filter
            (fun x => !x.isRaw) := by
  have hne : b.values ≠ [] := by rw [hv]; exact List.cons_ne_nil _ _
  have hcv : b.cellValues
      = (v :: vs).map (fun r => (sort.Strings (b.valueFn v).keys).map (b.valueFn r).get) := by
    simp [InsertBuilder.cellValues, InsertBuilder.columns, hv]
  rw [← hcv]
  exact ⟨_, _, _, numberRows 0 b.cellValues, Build_eq b hb hne, rfl,
    numberRows_matches _ 0, rfl⟩

/-- C3 at the builder of the test file. -/
theorem C3_rows_and_arguments_witness :
    testBuilder.buildOnce = false ∧ testBuilder.values = insertEntities ∧
    ∃ (sql : Str) (args : List Value) (b1 : InsertBuilder InsertEntity)
      (grid : List (List Cell)),
      testBuilder.Build = some ((sql, args), b1) ∧
      sql = testBuilder.insertHead
        ++ strings.Join (grid.map (fun cells =>
            ['('] ++ strings.Join (cells.map Cell.render) ", ".toList ++ [')'])) ", ".toList
        ++ conflictClause testBuilder.constraint testBuilder.do_
        ++ returningClause testBuilder.returning ∧
      List.Forall₂ (List.Forall₂ Cell.Matches)
        (insertEntities.map (fun r =>
          (sort.Strings (testValueFn
            { A := "a1".toList, B := "b1".toList, C := "c1".toList, D := [] }).keys).map
          (testValueFn r).get)) grid ∧
      args = ((insertEntities.map (fun r =>
          (sort.Strings (testValueFn
            { A := "a1".toList, B := "b1".toList, C := "c1".toList, D := [] }).keys).map
          (testValueFn r).get)).flatten).filter (fun x => !x.isRaw) :=
  ⟨rfl, rfl, C3_rows_and_arguments testBuilder _ _ rfl rfl⟩

/-- C4: when generation runs on a builder whose first record is `v`, the SQL
text starts with `INSERT INTO `, the sanitized table name, ` (`, the column
list and `) VALUES (`; the column list is the sanitized keys of the field map
of `v`, every key once, in strictly ascending order of the unsanitized keys,
separated by `, `. -/
theorem C4_statement_head {T : Type} (b : InsertBuilder T) (v : T) (vs : List T)
    (hb : b.buildOnce = false) (hv : b.values = v :: vs) :
    ∃ (sql : Str) (args : List Value) (b1 : InsertBuilder T) (cols : List Str) (rest : Str),
      b.Build = some ((sql, args), b1) ∧
      sql = "INSERT INTO ".toList ++ ident.Sanitize b.tableName ++ " (".toList
        ++ strings.Join (cols.map ident.Sanitize) ", ".toList ++ ") VALUES (".toList ++ rest ∧
      cols.Perm (b.valueFn v).keys ∧ cols.Nodup ∧ cols.Sorted (· < ·) := by
  have hne : b.values ≠ [] := by rw [hv]; exact List.cons_ne_nil _ _
  have hcols : b.columns = sort.Strings (b.valueFn v).keys := by
    simp [InsertBuilder.columns, hv]
  have hgrid : ∃ g gs, numberRows 0 b.cellValues = g :: gs := by
    simp [InsertBuilder.cellValues, hv, numberRows]
  obtain ⟨g, gs, hg⟩ := hgrid
  obtain ⟨rest, hrest⟩ := renderRows_cons g gs
  have hstrict := sortStrings_strict _ (b.valueFn v).nodup
  refine ⟨_, _, _, sort.Strings (b.valueFn v).keys,
    rest ++ conflictClause b.constraint b.do_ ++ returningClause b.returning,
    Build_eq b hb hne, ?_, sortStrings_perm _, hstrict.nodup, hstrict⟩
  rw [hg, hrest, InsertBuilder.insertHead, hcols]
  have h1 : ") VALUES (".toList = ") VALUES ".toList ++ ['('] := by decide
  simp only [h1, List.append_assoc, List.singleton_append, List.cons_append,
    List.nil_append]

/-- C4 at the builder of the test file. -/
theorem C4_statement_head_witness :
    testBuilder.buildOnce = false ∧ testBuilder.values
        = { A := "a1".toList, B := "b1".toList, C := "c1".toList, D := [] }
          :: testBuilder.values.tail ∧
    ∃ (sql : Str) (args : List Value) (b1 : InsertBuilder InsertEntity) (cols : List Str)
      (rest : Str),
      testBuilder.Build = some ((sql, args), b1) ∧
      sql = "INSERT INTO ".toList ++ ident.Sanitize testBuilder.tableName ++ " (".toList
        ++ strings.Join (cols.map ident.Sanitize) ", ".toList ++ ") VALUES (".toList ++ rest ∧
      cols.Perm (testBuilder.valueFn
        { A := "a1".toList, B := "b1".toList, C := "c1".toList, D := [] }).keys ∧
      cols.Nodup ∧ cols.Sorted (· < ·) :=
  ⟨rfl, rfl, C4_statement_head testBuilder _ _ rfl rfl⟩

/-- C5: when generation runs on a builder with at least one record and a
non-empty conflict constraint, the text written right after the closing
parenthesis of the last VALUES row is ` ON CONFLICT ON CONSTRAINT `, the
sanitized constraint and ` DO `, then `NOTHING` when the update map is empty,
and otherwise `UPDATE SET ` and one assignment per key of the update map,
every key once, in ascending order of the keys, separated by `, `. -/
theorem C5_conflict_clause {T : Type} (b : InsertBuilder T)
    (hb : b.buildOnce = false) (hne : b.values ≠ []) (hc : b.constraint ≠ []) :
    ∃ (sql : Str) (args : List Value) (b1 : InsertBuilder T) (front : Str)
      (keys : List Str),
      b.Build = some ((sql, args), b1) ∧
      ({ b with constraint := [], returning := [] } : InsertBuilder T).Build.map Prod.fst
        = some (front ++ [')'], args) ∧
      keys.Perm b.do_.keys ∧ keys.Nodup ∧ keys.Sorted (· < ·) ∧
      sql = front ++ [')'] ++ " ON CONFLICT ON CONSTRAINT ".toList
        ++ ident.Sanitize b.constraint ++ " DO ".toList
        ++ (if b.do_.len = 0 then "NOTHING".toList
            else "UPDATE SET ".toList ++ strings.Join
              (keys.map (fun k => ident.Sanitize k ++ " = ".toList ++ doValueText (b.do_.get k)))
              ", ".toList)
        ++ returningClause b.returning := by
  obtain ⟨g, gs, hg⟩ := numberRows_ne_nil b hne
  obtain ⟨front, hfront⟩ := renderRows_last g gs
  have hstrict := sortStrings_strict _ b.do_.nodup
  have h0 := Build_eq ({ b with constraint := [], returning := [] } : InsertBuilder T) hb hne
  have hh : ({ b with constraint := [], returning := [] } : InsertBuilder T).insertHead
      = b.insertHead := rfl
  have hcv : ({ b with constraint := [], returning := [] } : InsertBuilder T).cellValues
      = b.cellValues := rfl
  simp only [hh, hcv, conflictClause_nil, returningClause_nil, List.append_nil, hg, hfront]
    at h0
  refine ⟨_, _, _, b.insertHead ++ front, sort.Strings b.do_.keys, Build_eq b hb hne, ?_,
    sortStrings_perm _, hstrict.nodup, hstrict, ?_⟩
  · rw [h0, List.append_assoc]
    rfl
  · rw [hg, hfront]
    have ha : assignment b.do_
        = fun k => ident.Sanitize k ++ " = ".toList ++ doValueText (b.do_.get k) := rfl
    simp only [conflictClause, ha, hc, if_false, List.append_assoc]

/-- C5 at the builder of the test file. -/
theorem C5_conflict_clause_witness :
    testBuilder.buildOnce = false ∧ testBuilder.values ≠ [] ∧ testBuilder.constraint ≠ [] ∧
    ∃ (sql : Str) (args : List Value) (b1 : InsertBuilder InsertEntity) (front : Str)
      (keys : List Str),
      testBuilder.Build = some ((sql, args), b1) ∧
      ({ testBuilder with constraint := [], returning := [] } :
          InsertBuilder InsertEntity).Build.map Prod.fst
        = some (front ++ [')'], args) ∧
      keys.Perm testBuilder.do_.keys ∧ keys.Nodup ∧ keys.Sorted (· < ·) ∧
      sql = front ++ [')'] ++ " ON CONFLICT ON CONSTRAINT ".toList
        ++ ident.Sanitize testBuilder.constraint ++ " DO ".toList
        ++ (if testBuilder.do_.len = 0 then "NOTHING".toList
            else "UPDATE SET ".toList ++ strings.Join
              (keys.map (fun k =>
                ident.Sanitize k ++ " = ".toList ++ doValueText (testBuilder.do_.get k)))
              ", ".toList)
        ++ returningClause testBuilder.returning :=
  ⟨rfl, by decide, by decide, C5_conflict_clause testBuilder rfl (by decide) (by decide)⟩

/-- C6: the right-hand side of an assignment of the conflict-update clause is
`NULL` for nil, `EXCLUDED.` and the sanitized name for an Excluded reference,
the text itself for a raw SQL expression, the text in single quotes for a
plain string and the default formatting otherwise (`1` for the integer 1);
when generation runs with a non-empty constraint and a non-empty update map,
the clause is the assignments of the sorted keys with these right-hand sides,
and the argument list is the one generated with an empty update map. -/
theorem C6_update_values {T : Type} (b : InsertBuilder T)
    (hb : b.buildOnce = false) (hne : b.values ≠ []) (hc : b.constraint ≠ [])
    (hd : b.do_.len ≠ 0) :
    (doValueText Value.nil = "NULL".toList ∧
     (∀ v, doValueText (Value.Excluded v) = "EXCLUDED.".toList ++ ident.Sanitize v) ∧
     (∀ v, doValueText (Value.SQLValue v) = v) ∧
     (∀ v, doValueText (Value.string v) = ['\''] ++ v ++ ['\'']) ∧
     (∀ n, doValueText (Value.int n) = fmt.Sprint (Value.int n)) ∧
     (∀ t, doValueText (Value.other t) = fmt.Sprint (Value.other t)) ∧
     doValueText (Value.int 1) = ['1']) ∧
    ∃ (sql : Str) (args : List Value) (b1 : InsertBuilder T) (sqlN : Str),
      b.Build = some ((sql, args), b1) ∧
      ({ b with do_ := FieldMap.empty } : InsertBuilder T).Build.map Prod.fst
        = some (sqlN, args) ∧
      sql = b.insertHead ++ renderRows (numberRows 0 b.cellValues)
        ++ " ON CONFLICT ON CONSTRAINT ".toList ++ ident.Sanitize b.constraint
        ++ " DO ".toList ++ "UPDATE SET ".toList
        ++ strings.Join ((sort.Strings b.do_.keys).map (fun k =>
            ident.Sanitize k ++ " = ".toList ++ doValueText (b.do_.get k))) ", ".toList
        ++ returningClause b.returning := by
  refine ⟨⟨rfl, fun _ => rfl, fun _ => rfl, fun _ => rfl, fun _ => rfl, fun _ => rfl,
    by decide⟩, ?_⟩
  have h0 := Build_eq ({ b with do_ := FieldMap.empty } : InsertBuilder T) hb hne
  refine ⟨_, _, _, b.insertHead ++ renderRows (numberRows 0 b.cellValues)
      ++ conflictClause b.constraint FieldMap.empty ++ returningClause b.returning,
    Build_eq b hb hne, ?_, ?_⟩
  · rw [h0]; rfl
  · have ha : assignment b.do_
        = fun k => ident.Sanitize k ++ " = ".toList ++ doValueText (b.do_.get k) := rfl
    simp only [conflictClause, ha, hc, hd, if_false, List.append_assoc]

/-- C6 at the builder of the test file. -/
theorem C6_update_values_witness :
    testBuilder.buildOnce = false ∧ testBuilder.values ≠ [] ∧ testBuilder.constraint ≠ [] ∧
    testBuilder.do_.len ≠ 0 ∧
    ∃ (sql : Str) (args : List Value) (b1 : InsertBuilder InsertEntity) (sqlN : Str),
      testBuilder.Build = some ((sql, args), b1) ∧
      ({ testBuilder with do_ := FieldMap.empty } : InsertBuilder InsertEntity).Build.map
          Prod.fst = some (sqlN, args) ∧
      sql = testBuilder.insertHead ++ renderRows (numberRows 0 testBuilder.cellValues)
        ++ " ON CONFLICT ON CONSTRAINT ".toList ++ ident.Sanitize testBuilder.constraint
        ++ " DO ".toList ++ "UPDATE SET ".toList
        ++ strings.Join ((sort.Strings testBuilder.do_.keys).map (fun k =>
            ident.Sanitize k ++ " = ".toList ++ doValueText (testBuilder.do_.get k)))
            ", ".toList
        ++ returningClause testBuilder.returning :=
  ⟨rfl, by decide, by decide, by decide,
    (C6_update_values testBuilder rfl (by decide) (by decide) (by decide)).2⟩

/-- C7: when generation runs on a builder with at least one record, the SQL
text is the text generated without a returning list (the VALUES rows and the
conflict clause), followed, when the returning list is not empty, by
` RETURNING ` and the sanitized returning columns in the given order,
separated by `, `; nothing follows when the list is empty. `Returning` stores
the list as given. -/
theorem C7_returning_clause {T : Type} (b : InsertBuilder T)
    (hb : b.buildOnce = false) (hne : b.values ≠ []) :
    (∀ cols : List Str, (b.Returning cols).returning = cols) ∧
    ∃ (sql : Str) (args : List Value) (b1 : InsertBuilder T) (sql0 : Str),
      b.Build = some ((sql, args), b1) ∧
      (b.Returning []).Build.map Prod.fst = some (sql0, args) ∧
      sql0 = b.insertHead ++ renderRows (numberRows 0 b.cellValues)
        ++ conflictClause b.constraint b.do_ ∧
      (b.returning ≠ [] → sql = sql0 ++ " RETURNING ".toList
        ++ strings.Join (b.returning.map ident.Sanitize) ", ".toList) ∧
      (b.returning = [] → sql = sql0) := by
  refine ⟨fun _ => rfl, ?_⟩
  have h0 := Build_eq (b.Returning []) hb hne
  refine ⟨_, _, _, b.insertHead ++ renderRows (numberRows 0 b.cellValues)
      ++ conflictClause b.constraint b.do_, Build_eq b hb hne, ?_, rfl, ?_, ?_⟩
  · rw [h0]
    simp only [Option.map_some', InsertBuilder.Returning, returningClause_nil, List.append_nil]
    rfl
  · intro h
    simp only [returningClause, h, if_false, List.append_assoc]
  · intro h
    simp only [returningClause, h, if_true, List.append_nil]

/-- C7 at the builder of the test file. -/
theorem C7_returning_clause_witness :
    testBuilder.buildOnce = false ∧ testBuilder.values ≠ [] ∧
    ∃ (sql : Str) (args : List Value) (b1 : InsertBuilder InsertEntity) (sql0 : Str),
      testBuilder.Build = some ((sql, args), b1) ∧
      (testBuilder.Returning []).Build.map Prod.fst = some (sql0, args) ∧
      sql0 = testBuilder.insertHead ++ renderRows (numberRows 0 testBuilder.cellValues)
        ++ conflictClause testBuilder.constraint testBuilder.do_ ∧
      (testBuilder.returning ≠ [] → sql = sql0 ++ " RETURNING ".toList
        ++ strings.Join (testBuilder.returning.map ident.Sanitize) ", ".toList) ∧
      (testBuilder.returning = [] → sql = sql0) :=
  ⟨rfl, by decide, (C7_returning_clause testBuilder rfl (by decide)).2⟩

/-- C8: on a builder with at least one record, `Build` returns a result, and
`RawSql` leaves the builder in the same state; after that, whatever calls of
`OnConflictDoNothing`, `OnConflictDoUpdate`, `Returning`, `Build` and `RawSql`
follow, with any arguments, they all return and a later `Build` returns the
SQL text and the argument list of the first call. -/
theorem C8_build_cached {T : Type} (b : InsertBuilder T) (hne : b.values ≠ []) :
    ∃ (r : Str × List Value) (b1 : InsertBuilder T) (text : Str),
      b.Build = some (r, b1) ∧ b.RawSql = some (text, b1) ∧
      ∀ calls : List Call, ∃ (b2 b3 : InsertBuilder T),
        runCalls calls b1 = some b2 ∧ b2.Build = some (r, b3) := by
  obtain ⟨b1, h1, hc⟩ := build_some b hne
  refine ⟨(b1.sql, b1.args), b1, InsertBuilder.substituteArgs 0 b1.args b1.sql,
    by simp [InsertBuilder.Build, h1], by simp only [InsertBuilder.RawSql, h1], ?_⟩
  intro calls
  obtain ⟨b2, h2, hc2⟩ := runCalls_cached (b1.sql, b1.args) calls b1 hc
  exact ⟨b2, b2, h2, Build_of_cached _ b2 hc2⟩

/-- C8 at the builder of the test file. -/
theorem C8_build_cached_witness :
    testBuilder.values ≠ [] ∧
    ∃ (r : Str × List Value) (b1 : InsertBuilder InsertEntity) (text : Str),
      testBuilder.Build = some (r, b1) ∧ testBuilder.RawSql = some (text, b1) ∧
      ∀ calls : List Call, ∃ (b2 b3 : InsertBuilder InsertEntity),
        runCalls calls b1 = some b2 ∧ b2.Build = some (r, b3) :=
  ⟨by decide, C8_build_cached testBuilder (by decide)⟩

set_option maxRecDepth 100000 in
/-- C9: on the builder with ten records of one bound column, whose values are
the strings `a` to `j`, `Build` returns the placeholders `$1` to `$10` (ten
`$` in the text, ten arguments, none with a `$`); the text that `RawSql` returns
has `('a'0)` as its last row: replacing `$1` first has rewritten the head of
`$10`, so the tenth placeholder is not replaced by its argument `'j'`, and the
result is not the statement with every placeholder replaced by its argument. -/
theorem C9_rawSql_ten_parameters :
    tenBuilder.Build.map Prod.fst = some
      ("INSERT INTO \"t\" (\"x\") VALUES ($1), ($2), ($3), ($4), ($5), ($6), ($7), ($8), ($9), ($10)".toList,
       [Value.string "a".toList, Value.string "b".toList, Value.string "c".toList,
        Value.string "d".toList, Value.string "e".toList, Value.string "f".toList,
        Value.string "g".toList, Value.string "h".toList, Value.string "i".toList,
        Value.string "j".toList]) ∧
    tenBuilder.RawSql.map Prod.fst = some
      "INSERT INTO \"t\" (\"x\") VALUES ('a'), ('b'), ('c'), ('d'), ('e'), ('f'), ('g'), ('h'), ('i'), ('a'0)".toList ∧
    (tenBuilder.Build.map (fun r => (r.1.1.count '$', r.1.2.length))) = some (10, 10) ∧
    (tenBuilder.Build.map (fun r => r.1.2.all (fun v => !(argText v).contains '$')))
      = some true ∧
    rawSqlSpec tenBuilder =
      "INSERT INTO \"t\" (\"x\") VALUES ('a'), ('b'), ('c'), ('d'), ('e'), ('f'), ('g'), ('h'), ('i'), ('j')".toList ∧
    tenBuilder.RawSql.map Prod.fst ≠ some (rawSqlSpec tenBuilder) := by
  decide

set_option maxRecDepth 100000 in
/-- C10: for the builder of the test file (table `public.test`, the three
records, the update map on `constraint_name`, returning `b` and `c`), `RawSql`
returns exactly the expected statement of the test. -/
theorem C10_end_to_end : testBuilder.RawSql.map Prod.fst = some testExpected := by
  decide

/-- C11: for every string `s` (the empty one included, whose image is two
double quotes), `Sanitize s` is the dot-join of `count of dots in s + 1`
segments, each a double quote, a content and a double quote; no content has a
dot, and in every content each double quote is one half of an adjacent pair;
the output has `2 * (double quotes of s) + 2 * (segments)` double quotes. -/
theorem C11_sanitize_shape :
    ident.Sanitize [] = ['"', '"'] ∧ ∀ s : Str, ∃ segs : List Str,
      ident.Sanitize s = List.intercalate ['.'] (segs.map (fun t => ['"'] ++ t ++ ['"'])) ∧
      segs.length = s.count '.' + 1 ∧
      (∀ t ∈ segs, '.' ∉ t ∧ quotesPaired t = true) ∧
      (ident.Sanitize s).count '"' = 2 * s.count '"' + 2 * (s.count '.' + 1) := by
  refine ⟨by decide, fun s => ?_⟩
  refine ⟨(s.splitOn '.').map (fun p => doubleQuotes (p.filter (fun c => c != Char.ofNat 0))),
    ?_, ?_, ?_, ?_⟩
  · rw [sanitize_eq_spec, sanitizeSpec_uniform, List.map_map]
    rfl
  · rw [List.length_map, length_splitOn]
  · intro t ht
    obtain ⟨p, hp, rfl⟩ := List.mem_map.mp ht
    refine ⟨fun hmem => ?_, quotesPaired_doubleQuotes _⟩
    rcases mem_doubleQuotes _ _ hmem with h | h
    · exact absurd h (by decide)
    · exact not_mem_of_mem_splitOn '.' s p hp (List.mem_of_mem_filter h)
  · rw [sanitize_eq_join, count_join '"' ['.'] (by decide), List.map_map]
    have hf : (List.count '"' ∘ quoteSegment) = fun p => 2 + 2 * List.count '"' p := by
      funext p; exact count_quoteSegment p
    rw [hf]
    have hs := sum_count_splitOn '"' '.' (by decide) s
    have hl := length_splitOn '.' s
    generalize s.splitOn '.' = ls at hs hl
    rw [← hs, ← hl]
    clear hs hl
    induction ls with
    | nil => rfl
    | cons l ls ih => simp only [List.map_cons, List.sum_cons, List.length_cons, ih]; omega

/-- C12: for every string `s`, with or without a dot, `Sanitize s` contains no
null byte. -/
theorem C12_sanitize_no_null (s : Str) : Char.ofNat 0 ∉ ident.Sanitize s := by
  intro h
  rw [sanitize_eq_join] at h
  rcases mem_join _ _ _ h with h | ⟨l, hl, h⟩
  · exact absurd h (by decide)
  · obtain ⟨p, _, rfl⟩ := List.mem_map.mp hl
    rw [quoteSegment_eq] at h
    simp only [List.mem_append, List.mem_singleton] at h
    rcases h with (h | h) | h
    · exact absurd h (by decide)
    · rcases mem_doubleQuotes _ _ h with h | h
      · exact absurd h (by decide)
      · have := (List.mem_filter.mp h).2
        simp at this
    · exact absurd h (by decide)

/-- C19: reading `Sanitize s` back (split on the dot, drop the first and last
character of each piece, collapse the doubled double quotes, join with a dot)
gives `s` without its null bytes, hence `s` itself when `s` has no null byte;
and `Sanitize` is injective on the strings without a null byte. -/
theorem C19_sanitize_injective :
    (∀ s : Str, unsanitize (ident.Sanitize s) = s.filter (fun c => c != Char.ofNat 0)) ∧
    (∀ s : Str, Char.ofNat 0 ∉ s → unsanitize (ident.Sanitize s) = s) ∧
    (∀ s t : Str, Char.ofNat 0 ∉ s → Char.ofNat 0 ∉ t →
      ident.Sanitize s = ident.Sanitize t → s = t) := by
  have hid : ∀ s : Str, Char.ofNat 0 ∉ s → s.filter (fun c => c != Char.ofNat 0) = s := by
    intro s hs
    apply List.filter_eq_self.mpr
    intro c hc
    simp only [bne_iff_ne, ne_eq]
    rintro rfl
    exact hs hc
  refine ⟨unsanitize_sanitize, fun s hs => ?_, fun s t hs ht h => ?_⟩
  · rw [unsanitize_sanitize, hid s hs]
  · have h1 := unsanitize_sanitize s
    have h2 := unsanitize_sanitize t
    rw [hid s hs] at h1
    rw [hid t ht] at h2
    rw [← h1, ← h2, h]


/-- C19 at the name `a"b.c`. -/
theorem C19_sanitize_injective_witness :
    Char.ofNat 0 ∉ "a\"b.c".toList ∧
    unsanitize (ident.Sanitize "a\"b.c".toList) = "a\"b.c".toList ∧
    "a\"b.c".toList = "a\"b.c".toList :=
  ⟨by decide, C19_sanitize_injective.2.1 _ (by decide),
    C19_sanitize_injective.2.2 "a\"b.c".toList "a\"b.c".toList (by decide) (by decide) rfl⟩

set_option maxRecDepth 100000 in
/-- C13: one record, `OnConflictDoUpdate("c1", m)` with `m` mapping `a` to
`Excluded("a")`, then `OnConflictDoNothing("c2")` as the last conflict call:
`OnConflictDoNothing` keeps the update map, so `Build` writes `DO UPDATE SET`
with the earlier map and not `DO NOTHING`. -/
theorem C13_doNothing_after_doUpdate :
    nothingAfterUpdate.Build.map Prod.fst = some
      ("INSERT INTO \"t\" (\"a\") VALUES ($1) ON CONFLICT ON CONSTRAINT \"c2\" DO UPDATE SET \"a\" = EXCLUDED.\"a\"".toList,
       [Value.int 1]) ∧
    nothingAfterUpdate.Build.map (fun r => r.1.1) ≠ some
      "INSERT INTO \"t\" (\"a\") VALUES ($1) ON CONFLICT ON CONSTRAINT \"c2\" DO NOTHING".toList := by
  decide

/-- C14: `NewInsertBuilder` is total and leaves generation to be run; on a
builder on which generation has not run, `build`, `Build` and `RawSql` fail
exactly when the record collection is empty, and with at least one record
`Build` and `RawSql` return a result, whatever the conflict and returning
configuration. -/
theorem C14_failure_iff_empty {T : Type} (b : InsertBuilder T) (hb : b.buildOnce = false) :
    (∀ (t : Str) (vs : List T) (fn : RowMapper T),
      (NewInsertBuilder t vs fn).buildOnce = false ∧ (NewInsertBuilder t vs fn).values = vs) ∧
    (b.build = none ↔ b.values = []) ∧
    (b.Build = none ↔ b.values = []) ∧
    (b.RawSql = none ↔ b.values = []) ∧
    (b.values ≠ [] → ∃ (sql text : Str) (args : List Value) (b1 : InsertBuilder T),
      b.Build = some ((sql, args), b1) ∧ b.RawSql = some (text, b1)) := by
  have h := build_none_iff b hb
  refine ⟨fun _ _ _ => ⟨rfl, rfl⟩, h, ?_, ?_, ?_⟩
  · rw [← h]
    cases hb1 : b.build <;> simp [InsertBuilder.Build, hb1]
  · rw [← h]
    cases hb1 : b.build <;> simp [InsertBuilder.RawSql, hb1]
  · intro hne
    obtain ⟨b1, h1, _⟩ := build_some b hne
    exact ⟨b1.sql, InsertBuilder.substituteArgs 0 b1.args b1.sql, b1.args, b1,
      by simp [InsertBuilder.Build, h1], by simp only [InsertBuilder.RawSql, h1]⟩

/-- C14 at the builder of the test file and at a builder without records. -/
theorem C14_failure_iff_empty_witness :
    testBuilder.buildOnce = false ∧ (testBuilder.Build = none ↔ testBuilder.values = []) ∧
    ((NewInsertBuilder "t".toList ([] : List InsertEntity) testValueFn).Build = none
      ↔ (NewInsertBuilder "t".toList ([] : List InsertEntity) testValueFn).values = []) :=
  ⟨rfl, (C14_failure_iff_empty testBuilder rfl).2.2.1,
    (C14_failure_iff_empty (NewInsertBuilder "t".toList [] testValueFn) rfl).2.2.1⟩

set_option maxRecDepth 100000 in
/-- C20, as stated, fails: with the table name ` ON CONFLICT ON CONSTRAINT `
and no conflict configuration the SQL text contains that text although the
constraint is empty. -/
theorem C20_keyword_in_table_name :
    keywordTable.constraint = [] ∧
    keywordTable.Build.map (fun r => r.1.1)
      = some "INSERT INTO \" ON CONFLICT ON CONSTRAINT \" (\"a\") VALUES ($1)".toList ∧
    List.IsInfix " ON CONFLICT ON CONSTRAINT ".toList
      "INSERT INTO \" ON CONFLICT ON CONSTRAINT \" (\"a\") VALUES ($1)".toList ∧
    ¬ (List.IsInfix " ON CONFLICT ON CONSTRAINT ".toList
        "INSERT INTO \" ON CONFLICT ON CONSTRAINT \" (\"a\") VALUES ($1)".toList
      ↔ keywordTable.constraint ≠ []) := by
  have hin : List.IsInfix " ON CONFLICT ON CONSTRAINT ".toList
      "INSERT INTO \" ON CONFLICT ON CONSTRAINT \" (\"a\") VALUES ($1)".toList :=
    ⟨"INSERT INTO \"".toList, "\" (\"a\") VALUES ($1)".toList, by decide⟩
  refine ⟨rfl, by decide, hin, fun h => ?_⟩
  exact (h.mp hin) rfl

/-- C20, amended: when generation runs on a builder with at least one record,
an empty constraint gives the text of the same builder without conflict
configuration (so after `OnConflictDoUpdate("", m)` and after
`OnConflictDoNothing("")`: the update map is dropped), a non-empty constraint
gives a text that contains ` ON CONFLICT ON CONSTRAINT `, and when the text
without conflict configuration does not contain ` ON CONFLICT ON CONSTRAINT `
the SQL text contains it exactly when the constraint is not empty. -/
theorem C20_conflict_clause_gate {T : Type} (b : InsertBuilder T)
    (hb : b.buildOnce = false) (hne : b.values ≠ []) :
    ∃ (sql sql0 : Str) (args : List Value) (b1 : InsertBuilder T),
      b.Build = some ((sql, args), b1) ∧
      ({ b with constraint := [], do_ := FieldMap.empty } : InsertBuilder T).Build.map Prod.fst
        = some (sql0, args) ∧
      (b.constraint = [] → sql = sql0) ∧
      (b.constraint ≠ [] → List.IsInfix " ON CONFLICT ON CONSTRAINT ".toList sql) ∧
      (¬ List.IsInfix " ON CONFLICT ON CONSTRAINT ".toList sql0 →
        (List.IsInfix " ON CONFLICT ON CONSTRAINT ".toList sql ↔ b.constraint ≠ [])) ∧
      (∀ m : FieldMap, (b.OnConflictDoUpdate [] m).Build.map Prod.fst = some (sql0, args)) ∧
      (b.OnConflictDoNothing []).Build.map Prod.fst = some (sql0, args) := by
  have h0 : ∀ m : FieldMap,
      ({ b with constraint := [], do_ := m } : InsertBuilder T).Build.map Prod.fst
        = some (b.insertHead ++ renderRows (numberRows 0 b.cellValues)
            ++ returningClause b.returning, boundValues b.cellValues.flatten) := by
    intro m
    rw [Build_eq ({ b with constraint := [], do_ := m } : InsertBuilder T) hb hne]
    simp only [Option.map_some', conflictClause_nil, List.append_nil]
    rfl
  have hsql : b.constraint = [] →
      b.insertHead ++ renderRows (numberRows 0 b.cellValues)
        ++ conflictClause b.constraint b.do_ ++ returningClause b.returning
      = b.insertHead ++ renderRows (numberRows 0 b.cellValues)
        ++ returningClause b.returning := by
    intro hc
    rw [hc, conflictClause_nil, List.append_nil]
  have hin : b.constraint ≠ [] → List.IsInfix " ON CONFLICT ON CONSTRAINT ".toList
      (b.insertHead ++ renderRows (numberRows 0 b.cellValues)
        ++ conflictClause b.constraint b.do_ ++ returningClause b.returning) :=
    fun hc => isInfix_conflictClause b.constraint hc b.do_ _ _
  refine ⟨_, _, _, _, Build_eq b hb hne, h0 FieldMap.empty, hsql, hin, ?_, h0, h0 b.do_⟩
  intro hno
  constructor
  · intro h hc
    rw [hsql hc] at h
    exact hno h
  · exact hin

/-- C20, amended, at the builder of the test file. -/
theorem C20_conflict_clause_gate_witness :
    testBuilder.buildOnce = false ∧ testBuilder.values ≠ [] ∧
    ∃ (sql sql0 : Str) (args : List Value) (b1 : InsertBuilder InsertEntity),
      testBuilder.Build = some ((sql, args), b1) ∧
      ({ testBuilder with constraint := [], do_ := FieldMap.empty } :
          InsertBuilder InsertEntity).Build.map Prod.fst = some (sql0, args) ∧
      (testBuilder.constraint = [] → sql = sql0) ∧
      (testBuilder.constraint ≠ [] → List.IsInfix " ON CONFLICT ON CONSTRAINT ".toList sql) ∧
      (¬ List.IsInfix " ON CONFLICT ON CONSTRAINT ".toList sql0 →
        (List.IsInfix " ON CONFLICT ON CONSTRAINT ".toList sql
          ↔ testBuilder.constraint ≠ [])) ∧
      (∀ m : FieldMap,
        (testBuilder.OnConflictDoUpdate [] m).Build.map Prod.fst = some (sql0, args)) ∧
      (testBuilder.OnConflictDoNothing []).Build.map Prod.fst = some (sql0, args) :=
  ⟨rfl, by decide, C20_conflict_clause_gate testBuilder rfl (by decide)⟩

/-- C15: two builders on which generation has not run, with the same table,
records, constraint and returning list, whose record field maps and update
maps hold the same entries in another enumeration order, return the same SQL
text and the same argument list from `Build`. -/
theorem C15_iteration_order {T : Type} (b1 b2 : InsertBuilder T)
    (hb1 : b1.buildOnce = false) (hb2 : b2.buildOnce = false) (hne : b1.values ≠ [])
    (ht : b1.tableName = b2.tableName) (hv : b1.values = b2.values)
    (hc : b1.constraint = b2.constraint) (hr : b1.returning = b2.returning)
    (hfn : ∀ v ∈ b1.values, (b1.valueFn v).entries.Perm (b2.valueFn v).entries)
    (hdo : b1.do_.entries.Perm b2.do_.entries) :
    ∃ r : Str × List Value,
      b1.Build.map Prod.fst = some r ∧ b2.Build.map Prod.fst = some r := by
  have hne2 : b2.values ≠ [] := hv ▸ hne
  have hcols := columns_congr b1 b2 hv hfn
  have hcv := cellValues_congr b1 b2 hv hcols
    (fun v hvm k _ => get_eq_of_perm _ _ (hfn v hvm) k)
  have hh := insertHead_congr b1 b2 ht hcols
  refine ⟨_, by rw [Build_eq b1 hb1 hne]; rfl, ?_⟩
  rw [Build_eq b2 hb2 hne2, hh, hcv, hc, hr, conflictClause_congr _ _ _ hdo]
  rfl

/-- C15 at the builder of the test file and its reordered copy. -/
theorem C15_iteration_order_witness :
    testBuilder.buildOnce = false ∧ testBuilderReordered.buildOnce = false ∧
    testBuilder.values ≠ [] ∧ testBuilder.tableName = testBuilderReordered.tableName ∧
    testBuilder.values = testBuilderReordered.values ∧
    testBuilder.constraint = testBuilderReordered.constraint ∧
    testBuilder.returning = testBuilderReordered.returning ∧
    (∀ v ∈ testBuilder.values,
      (testBuilder.valueFn v).entries.Perm (testBuilderReordered.valueFn v).entries) ∧
    testBuilder.do_.entries.Perm testBuilderReordered.do_.entries ∧
    ∃ r : Str × List Value,
      testBuilder.Build.map Prod.fst = some r ∧
      testBuilderReordered.Build.map Prod.fst = some r :=
  ⟨rfl, rfl, by decide, rfl, rfl, rfl, rfl, by decide, by decide,
    C15_iteration_order testBuilder testBuilderReordered rfl rfl (by decide) rfl rfl rfl rfl
      (by decide) (by decide)⟩

/-- C16: two builders on which generation has not run, with the same table,
constraint, update map and returning list, the same number of records, the
same key set in the first record's field map, and the same raw SQL
expressions in the same cells, return the same SQL text from `Build`, whatever
the values of the other cells; only the argument lists may differ. -/
theorem C16_bound_values_not_in_text {T1 T2 : Type} (b1 : InsertBuilder T1)
    (b2 : InsertBuilder T2) (v1 : T1) (vs1 : List T1) (v2 : T2) (vs2 : List T2)
    (hb1 : b1.buildOnce = false) (hb2 : b2.buildOnce = false)
    (hv1 : b1.values = v1 :: vs1) (hv2 : b2.values = v2 :: vs2)
    (ht : b1.tableName = b2.tableName) (hc : b1.constraint = b2.constraint)
    (hdo : b1.do_ = b2.do_) (hr : b1.returning = b2.returning)
    (hkeys : ∀ k, k ∈ (b1.valueFn v1).keys ↔ k ∈ (b2.valueFn v2).keys)
    (hraw : List.Forall₂ (fun r1 r2 => ∀ k ∈ (b1.valueFn v1).keys,
      Value.SameRaw ((b1.valueFn r1).get k) ((b2.valueFn r2).get k)) b1.values b2.values) :
    ∃ (sql : Str) (args1 args2 : List Value),
      b1.Build.map Prod.fst = some (sql, args1) ∧
      b2.Build.map Prod.fst = some (sql, args2) := by
  have hne1 : b1.values ≠ [] := by rw [hv1]; exact List.cons_ne_nil _ _
  have hne2 : b2.values ≠ [] := by rw [hv2]; exact List.cons_ne_nil _ _
  have hperm : (b1.valueFn v1).keys.Perm (b2.valueFn v2).keys :=
    (List.perm_ext_iff_of_nodup (b1.valueFn v1).nodup (b2.valueFn v2).nodup).mpr hkeys
  have hc1 : b1.columns = sort.Strings (b1.valueFn v1).keys := by
    simp [InsertBuilder.columns, hv1]
  have hc2 : b2.columns = sort.Strings (b2.valueFn v2).keys := by
    simp [InsertBuilder.columns, hv2]
  have hcols : b1.columns = b2.columns := by
    rw [hc1, hc2]; exact sortStrings_eq_of_perm _ _ hperm
  have hgrid : List.Forall₂ (List.Forall₂ Value.SameRaw) b1.cellValues b2.cellValues := by
    unfold InsertBuilder.cellValues
    rw [List.forall₂_map_left_iff, List.forall₂_map_right_iff]
    refine hraw.imp ?_
    intro r1 r2 h
    rw [← hcols, List.forall₂_map_left_iff, List.forall₂_map_right_iff, List.forall₂_same]
    intro k hk
    refine h k ?_
    rw [hc1] at hk
    exact (sortStrings_perm _).mem_iff.mp hk
  refine ⟨_, _, boundValues b2.cellValues.flatten, by rw [Build_eq b1 hb1 hne1]; rfl, ?_⟩
  rw [Build_eq b2 hb2 hne2, insertHead_congr b1 b2 ht hcols, numberRows_congr _ _ hgrid 0,
    hc, hdo, hr]
  rfl

/-- C16 at the builder of the test file and a builder with other bound values. -/
theorem C16_bound_values_not_in_text_witness :
    testBuilder.buildOnce = false ∧ testBuilderOtherValues.buildOnce = false ∧
    testBuilder.values = insertEntities ∧
    testBuilderOtherValues.values = [10, 20, 30] ∧
    ∃ (sql : Str) (args1 args2 : List Value),
      testBuilder.Build.map Prod.fst = some (sql, args1) ∧
      testBuilderOtherValues.Build.map Prod.fst = some (sql, args2) :=
  ⟨rfl, rfl, rfl, rfl,
    C16_bound_values_not_in_text testBuilder testBuilderOtherValues _ _ 10 [20, 30] rfl rfl
      rfl rfl rfl rfl rfl rfl (fun _ => Iff.rfl) (by decide)⟩

/-- C17: generation reads the records only at the keys of the first record:
every VALUES row has as many cells as the first record's field map has keys;
a builder whose later records agree with this one at the keys of the first
record returns the same SQL text and argument list (keys outside the first
record have no effect); and where a later record lacks a key of the first
record, the cell is a numbered placeholder whose argument is nil. -/
theorem C17_first_record_keys {T : Type} (b b2 : InsertBuilder T) (v : T) (vs : List T)
    (hb : b.buildOnce = false) (hb2 : b2.buildOnce = false) (hv : b.values = v :: vs)
    (ht : b2.tableName = b.tableName) (hv2 : b2.values = b.values)
    (hc : b2.constraint = b.constraint) (hdo : b2.do_ = b.do_)
    (hr : b2.returning = b.returning) (hfirst : b2.valueFn v = b.valueFn v)
    (hlater : ∀ r ∈ vs, ∀ k ∈ (b.valueFn v).keys,
      (b2.valueFn r).get k = (b.valueFn r).get k) :
    ∃ (sql : Str) (args : List Value) (b1 : InsertBuilder T) (grid : List (List Cell)),
      b.Build = some ((sql, args), b1) ∧
      b2.Build.map Prod.fst = some (sql, args) ∧
      sql = b.insertHead ++ renderRows grid
        ++ conflictClause b.constraint b.do_ ++ returningClause b.returning ∧
      (∀ row ∈ grid, row.length = (b.valueFn v).len) ∧
      List.Forall₂ (fun r row => List.Forall₂ (fun k cell =>
          Cell.Binds args ((b.valueFn r).get k) cell ∧
          (k ∉ (b.valueFn r).keys →
            ∃ n, cell = Cell.param n ∧ 1 ≤ n ∧ args[n - 1]? = some Value.nil))
        (sort.Strings (b.valueFn v).keys) row) b.values grid := by
  have hne : b.values ≠ [] := by rw [hv]; exact List.cons_ne_nil _ _
  have hne2 : b2.values ≠ [] := by rw [hv2]; exact hne
  have hcol : b.columns = sort.Strings (b.valueFn v).keys := by
    simp [InsertBuilder.columns, hv]
  have hcols : b2.columns = b.columns := by
    rw [hcol]
    simp [InsertBuilder.columns, hv2, hv, hfirst]
  have hcv : b2.cellValues = b.cellValues := by
    apply cellValues_congr b2 b hv2 hcols
    intro r hrm k hk
    rw [hcols, hcol] at hk
    have hk2 : k ∈ (b.valueFn v).keys := (sortStrings_perm _).mem_iff.mp hk
    rw [hv2, hv] at hrm
    rcases List.mem_cons.mp hrm with rfl | hrm
    · rw [hfirst]
    · exact hlater r hrm k hk2
  have hbinds := numberRows_binds b.cellValues 0 [] [] rfl
  simp only [List.nil_append, List.append_nil] at hbinds
  refine ⟨_, _, _, numberRows 0 b.cellValues, Build_eq b hb hne, ?_, rfl, ?_, ?_⟩
  · rw [Build_eq b2 hb2 hne2, insertHead_congr b2 b ht hcols, hcv, hc, hdo, hr]
    rfl
  · apply numberRows_row_length
    intro vals hvals
    obtain ⟨r, _, rfl⟩ := List.mem_map.mp hvals
    rw [List.length_map, hcol, (sortStrings_perm _).length_eq]
    simp [FieldMap.keys, FieldMap.len]
  · generalize boundValues b.cellValues.flatten = A at hbinds ⊢
    generalize numberRows 0 b.cellValues = G at hbinds ⊢
    unfold InsertBuilder.cellValues at hbinds
    rw [List.forall₂_map_left_iff] at hbinds
    refine hbinds.imp ?_
    intro r row hrow
    rw [hcol, List.forall₂_map_left_iff] at hrow
    refine hrow.imp ?_
    intro k cell hcell
    refine ⟨hcell, fun hk => ?_⟩
    have hnil := get_eq_nil_of_not_mem (b.valueFn r) k hk
    rw [hnil] at hcell
    cases cell with
    | raw t => exact Value.noConfusion hcell
    | param n => exact ⟨n, rfl, hcell.2.1, hcell.2.2⟩

set_option maxRecDepth 100000 in
/-- C17 at two builders whose later records lack the key `b`; one of them
carries the extra key `z`. -/
theorem C17_first_record_keys_witness :
    testBuilderRagged.buildOnce = false ∧ testBuilderRagged.values = insertEntities ∧
    testBuilderRagged.Build.map Prod.fst = some
      ("INSERT INTO \"public\".\"test\" (\"a\", \"b\", \"c\") VALUES ($1, $2, now()), ($3, $4, now()), ($5, $6, now()) ON CONFLICT ON CONSTRAINT \"constraint_name\" DO UPDATE SET \"b\" = EXCLUDED.\"b\", \"d\" = 1, \"e\" = NULL, \"updated_at\" = now() RETURNING \"b\", \"c\"".toList,
       [Value.string "a1".toList, Value.string "b1".toList, Value.string "a2".toList,
        Value.nil, Value.string "a3".toList, Value.nil]) ∧
    ∃ (sql : Str) (args : List Value) (b1 : InsertBuilder InsertEntity)
      (grid : List (List Cell)),
      testBuilderRagged.Build = some ((sql, args), b1) ∧
      testBuilderRaggedPlain.Build.map Prod.fst = some (sql, args) ∧
      sql = testBuilderRagged.insertHead ++ renderRows grid
        ++ conflictClause testBuilderRagged.constraint testBuilderRagged.do_
        ++ returningClause testBuilderRagged.returning ∧
      (∀ row ∈ grid, row.length = (testBuilderRagged.valueFn
        { A := "a1".toList, B := "b1".toList, C := "c1".toList, D := [] }).len) ∧
      List.Forall₂ (fun r row => List.Forall₂ (fun k cell =>
          Cell.Binds args ((testBuilderRagged.valueFn r).get k) cell ∧
          (k ∉ (testBuilderRagged.valueFn r).keys →
            ∃ n, cell = Cell.param n ∧ 1 ≤ n ∧ args[n - 1]? = some Value.nil))
        (sort.Strings (testBuilderRagged.valueFn
          { A := "a1".toList, B := "b1".toList, C := "c1".toList, D := [] }).keys) row)
        testBuilderRagged.values grid :=
  ⟨rfl, rfl, by decide,
    C17_first_record_keys testBuilderRagged testBuilderRaggedPlain _ _ rfl rfl rfl rfl rfl
      rfl rfl rfl rfl (by decide)⟩

/-- C18: on a builder on which generation has not run, when `Build` returns a
text with at most 9 arguments, whose only `$` are those of the placeholders
(as many `$` as arguments) and whose argument texts have no `$`, the loop of
`RawSql` returns the text of `Build` with every placeholder `$k` replaced by
the text of the `k`-th argument (a string in single quotes, otherwise the
default formatting); the head, the raw SQL cells and the conflict and
returning clauses are left as they are. -/
theorem C18_rawSql_at_most_nine {T : Type} (b : InsertBuilder T) (sql : Str)
    (args : List Value) (hb : b.buildOnce = false)
    (hB : b.Build.map Prod.fst = some (sql, args))
    (h9 : args.length ≤ 9) (hdollar : sql.count '$' = args.length)
    (hargs : ∀ v ∈ args, '$' ∉ argText v) :
    b.values ≠ [] ∧
    ∃ (head tail : Str) (grid : List (List Cell)),
      head = b.insertHead ∧
      tail = conflictClause b.constraint b.do_ ++ returningClause b.returning ∧
      '$' ∉ head ∧ '$' ∉ tail ∧ (∀ row ∈ grid, ∀ t, Cell.raw t ∈ row → '$' ∉ t) ∧
      sql = head ++ strings.Join (grid.map (fun cells =>
          ['('] ++ strings.Join (cells.map Cell.render) ", ".toList ++ [')'])) ", ".toList
        ++ tail ∧
      b.RawSql.map Prod.fst = some (head ++ strings.Join (grid.map (fun cells =>
          ['('] ++ strings.Join (cells.map (Cell.substitute args)) ", ".toList ++ [')']))
          ", ".toList ++ tail) := by
  have hne : b.values ≠ [] := by
    intro h
    have hnone : b.build = none := (build_none_iff b hb).mpr h
    simp [InsertBuilder.Build, hnone] at hB
  have hBe := Build_eq b hb hne
  rw [hBe] at hB
  simp only [Option.map_some', Option.some.injEq, Prod.mk.injEq] at hB
  obtain ⟨hsql, hargs_eq⟩ := hB
  subst hargs_eq
  rw [← hsql, List.append_assoc _ (conflictClause b.constraint b.do_)] at hdollar
  obtain ⟨hhead, htail, hplain⟩ := plain_of_count _ _ _ h9 hdollar
  have hraw := rawSql_of_plain b hb hne h9 hargs hhead htail hplain
  refine ⟨hne, b.insertHead, _, numberRows 0 b.cellValues, rfl, rfl, hhead, htail,
    fun row hrow t ht => hplain row hrow _ ht, ?_, ?_⟩
  · rw [← hsql, List.append_assoc _ (conflictClause b.constraint b.do_)]
    rfl
  · rw [hraw, rawSqlSpec, List.append_assoc _ (conflictClause b.constraint b.do_)]

set_option maxRecDepth 100000 in
/-- C18 at the builder of the test file, which has six arguments. -/
theorem C18_rawSql_at_most_nine_witness :
    testBuilder.buildOnce = false ∧
    testBuilder.Build.map Prod.fst = some
      ("INSERT INTO \"public\".\"test\" (\"a\", \"b\", \"c\") VALUES ($1, $2, now()), ($3, $4, now()), ($5, $6, now()) ON CONFLICT ON CONSTRAINT \"constraint_name\" DO UPDATE SET \"b\" = EXCLUDED.\"b\", \"d\" = 1, \"e\" = NULL, \"updated_at\" = now() RETURNING \"b\", \"c\"".toList,
       [Value.string "a1".toList, Value.string "b1".toList, Value.string "a2".toList,
        Value.string "b2".toList, Value.string "a3".toList, Value.string "b3".toList]) ∧
    ∃ (head tail : Str) (grid : List (List Cell)),
      head = testBuilder.insertHead ∧
      tail = conflictClause testBuilder.constraint testBuilder.do_
        ++ returningClause testBuilder.returning ∧
      '$' ∉ head ∧ '$' ∉ tail ∧ (∀ row ∈ grid, ∀ t, Cell.raw t ∈ row → '$' ∉ t) ∧
      "INSERT INTO \"public\".\"test\" (\"a\", \"b\", \"c\") VALUES ($1, $2, now()), ($3, $4, now()), ($5, $6, now()) ON CONFLICT ON CONSTRAINT \"constraint_name\" DO UPDATE SET \"b\" = EXCLUDED.\"b\", \"d\" = 1, \"e\" = NULL, \"updated_at\" = now() RETURNING \"b\", \"c\"".toList
        = head ++ strings.Join (grid.map (fun cells =>
          ['('] ++ strings.Join (cells.map Cell.render) ", ".toList ++ [')'])) ", ".toList
        ++ tail ∧
      testBuilder.RawSql.map Prod.fst = some (head ++ strings.Join (grid.map (fun cells =>
          ['('] ++ strings.Join (cells.map (Cell.substitute
            [Value.string "a1".toList, Value.string "b1".toList, Value.string "a2".toList,
             Value.string "b2".toList, Value.string "a3".toList, Value.string "b3".toList]))
            ", ".toList ++ [')'])) ", ".toList ++ tail) :=
  ⟨rfl, by decide,
    (C18_rawSql_at_most_nine testBuilder _ _ rfl (by decide) (by decide) (by decide)
      (by decide)).2⟩

end Pgb
